import Mathlib

/-!
Verification of the OptimizeHub metaheuristic optimization engines.

This file is a shallow embedding, in Lean 4, of the five optimizers in
`backend/app/algorithms` (particle_swarm.py, genetic_algorithm.py,
differential_evolution.py, ant_colony.py, simulated_annealing.py) together
with their parameter/problem validators.  Numeric work is modelled over ℚ
(exact rationals standing for Python floats), except where the source uses
transcendental functions (`exp`, `log`, fractional powers), which are
modelled over ℝ.  Random draws (uniform deviates, standard-normal deviates,
random index choices) are passed in explicitly as oracle inputs, mirroring
the "injected randomness source" described in the repository's design notes.
A wall-clock read is likewise an oracle `ℕ → ℚ` giving the elapsed time seen
at each timeout check, mirroring the injectable clock source.
-/

namespace OptHub

/-- The optimization objective (`problem['objective']`). -/
inductive Objective where
  | minimize
  | maximize
deriving DecidableEq, Repr

/-- `_is_better` shared by all engines: strict comparison in the direction of
the objective.  (Fitness values are ℚ in the engines modelled exactly and ℝ
in GA, so the comparator is stated for any linear order.) -/
def isBetter {K : Type} [LinearOrder K] (obj : Objective) (newFitness oldFitness : K) : Bool :=
  match obj with
  | .minimize => newFitness < oldFitness
  | .maximize => newFitness > oldFitness

/-- `np.clip(x, lo, hi)`: project a scalar onto `[lo, hi]`. -/
def clip {K : Type} [LinearOrder K] (x lo hi : K) : K :=
  min (max x lo) hi

/-- Per-dimension `np.clip` against the problem bounds, as in `_apply_bounds`
of PSO/GA/ACOR and the per-dimension clip of SA's `_generate_neighbor`. -/
def clipVec {K : Type} [LinearOrder K] (bounds : List (K × K)) (v : List K) : List K :=
  List.zipWith (fun b x => clip x b.1 b.2) bounds v

/-- A vector lies coordinatewise within the closed bounds `[lower_d, upper_d]`
and has one coordinate per bound. -/
def inBounds {K : Type} [LinearOrder K] : List (K × K) → List K → Prop
  | [], [] => True
  | b :: bs, x :: xs => (b.1 ≤ x ∧ x ≤ b.2) ∧ inBounds bs xs
  | _ :: _, [] => False
  | [], _ :: _ => False

instance inBounds.instDecidable {K : Type} [LinearOrder K] :
    (bs : List (K × K)) → (xs : List K) → Decidable (inBounds bs xs)
  | [], [] => .isTrue trivial
  | _ :: _, [] => .isFalse (fun h => h)
  | [], _ :: _ => .isFalse (fun h => h)
  | b :: bs, x :: xs =>
      match inBounds.instDecidable bs xs with
      | .isTrue h =>
          if hb : b.1 ≤ x ∧ x ≤ b.2 then .isTrue ⟨hb, h⟩ else .isFalse (fun hc => hb hc.1)
      | .isFalse h => .isFalse (fun hc => h hc.2)

/-- The schema invariant `lower < upper` for every bound pair. -/
def validBounds {K : Type} [LinearOrder K] (bounds : List (K × K)) : Prop :=
  ∀ p ∈ bounds, p.1 < p.2

instance validBounds.instDecidable {K : Type} [LinearOrder K]
    (bounds : List (K × K)) : Decidable (validBounds bounds) :=
  List.decidableBAll _ bounds

theorem clip_mem {K : Type} [LinearOrder K] {lo hi : K} (x : K) (h : lo ≤ hi) :
    lo ≤ clip x lo hi ∧ clip x lo hi ≤ hi := by
  constructor
  · exact le_min (le_max_right x lo) h
  · exact min_le_right _ _

theorem inBounds_length {K : Type} [LinearOrder K] :
    ∀ {bs : List (K × K)} {xs : List K}, inBounds bs xs → xs.length = bs.length
  | [], [], _ => rfl
  | _ :: bs, _ :: xs, h => by
      simpa using inBounds_length h.2
  | _ :: _, [], h => absurd h (by simp [inBounds])
  | [], _ :: _, h => absurd h (by simp [inBounds])

theorem inBounds_clipVec {K : Type} [LinearOrder K] :
    ∀ (bs : List (K × K)) (xs : List K), validBounds bs → xs.length = bs.length →
      inBounds bs (clipVec bs xs)
  | [], [], _, _ => trivial
  | b :: bs, x :: xs, hv, hl => by
      refine ⟨clip_mem x (le_of_lt (hv b (by simp))), ?_⟩
      exact inBounds_clipVec bs xs (fun p hp => hv p (by simp [hp])) (by simpa using hl)
  | _ :: _, [], _, hl => by simp at hl
  | [], _ :: _, _, hl => by simp at hl

theorem inBounds_clipVec_of_valid {K : Type} [LinearOrder K]
    {bs : List (K × K)} {xs : List K} (hv : validBounds bs) (hl : xs.length = bs.length) :
    inBounds bs (clipVec bs xs) :=
  inBounds_clipVec bs xs hv hl

/-- If a vector is already in bounds, clipping it is the identity. -/
theorem clipVec_of_inBounds {K : Type} [LinearOrder K] :
    ∀ {bs : List (K × K)} {xs : List K}, inBounds bs xs → clipVec bs xs = xs
  | [], [], _ => rfl
  | b :: bs, x :: xs, h => by
      have hx : clip x b.1 b.2 = x := by
        have h1 := h.1
        simp [clip, max_eq_left h1.1, min_eq_left h1.2]
      simpa [clipVec, hx] using clipVec_of_inBounds h.2

/-! ### Elementwise vector arithmetic (numpy broadcasting on 1-d arrays) -/

/-- Elementwise vector addition. -/
def vadd {K : Type} [Add K] (v w : List K) : List K := List.zipWith (· + ·) v w

/-- Elementwise vector subtraction. -/
def vsub {K : Type} [Sub K] (v w : List K) : List K := List.zipWith (· - ·) v w

/-- Elementwise vector multiplication. -/
def vmul {K : Type} [Mul K] (v w : List K) : List K := List.zipWith (· * ·) v w

/-- Scalar times vector. -/
def vscale {K : Type} [Mul K] (c : K) (v : List K) : List K := v.map (c * ·)

theorem length_vadd {K : Type} [Add K] (v w : List K) :
    (vadd v w).length = min v.length w.length := by simp [vadd]

theorem length_vsub {K : Type} [Sub K] (v w : List K) :
    (vsub v w).length = min v.length w.length := by simp [vsub]

theorem length_vmul {K : Type} [Mul K] (v w : List K) :
    (vmul v w).length = min v.length w.length := by simp [vmul]

theorem length_vscale {K : Type} [Mul K] (c : K) (v : List K) :
    (vscale c v).length = v.length := by simp [vscale]

theorem length_clipVec {K : Type} [LinearOrder K] (bs : List (K × K)) (v : List K) :
    (clipVec bs v).length = min bs.length v.length := by simp [clipVec]

/-! ### The "not worse" relation used for convergence-trace monotonicity -/

/-- `b` is not worse than `a` in the direction of the objective: this is the
relation that holds between consecutive points of a monotone best-so-far
trace. -/
def notWorse {K : Type} [LinearOrder K] (obj : Objective) (a b : K) : Prop :=
  isBetter obj a b = false

theorem notWorse_refl {K : Type} [LinearOrder K] (obj : Objective) (a : K) :
    notWorse obj a a := by
  cases obj <;> simp [notWorse, isBetter]

theorem notWorse_trans {K : Type} [LinearOrder K] {obj : Objective} {a b c : K}
    (h1 : notWorse obj a b) (h2 : notWorse obj b c) : notWorse obj a c := by
  cases obj <;>
    simp only [notWorse, isBetter, decide_eq_false_iff_not, not_lt] at h1 h2 ⊢ <;>
    [exact le_trans h2 h1; exact le_trans h1 h2]

theorem notWorse_of_isBetter {K : Type} [LinearOrder K] {obj : Objective} {a b : K}
    (h : isBetter obj b a = true) : notWorse obj a b := by
  cases obj <;>
    simp only [notWorse, isBetter, decide_eq_true_eq, decide_eq_false_iff_not, not_lt] at h ⊢ <;>
    exact le_of_lt h

/-- The convergence trace is monotone: every later recorded point is not
worse than its predecessor (non-increasing for minimize, non-decreasing for
maximize). -/
def traceMonotone {K : Type} [LinearOrder K] (obj : Objective) (t : List K) : Prop :=
  List.Chain' (notWorse obj) t

/-! ### Parameter and problem-schema validators

Each engine validates its problem dictionary and parameters with explicit
`ValueError`s.  A validator is embedded as a `Bool`: `true` means the checks
pass, `false` means a `ValidationError` is raised.  Python `isinstance`
checks are rendered by the types of the arguments (`ℤ` for ints, `ℚ` for
floats); string-tag parameters are closed enums, so the "tag must be one of
..." checks are membership tests on the enum.  No validator takes the
fitness function as an argument: validation cannot evaluate fitness. -/

/-- DE mutation strategy tags (`'rand/1/bin' | 'best/1/bin' | 'rand/2/bin'`). -/
inductive DEStrategy where
  | rand1bin
  | best1bin
  | rand2bin
deriving DecidableEq, Repr

/-- DE boundary-policy tags (`'clip' | 'reflect' | 'wrap'`). -/
inductive BoundaryHandling where
  | clipBound
  | reflectBound
  | wrapBound
deriving DecidableEq, Repr

/-- SA cooling-schedule tags (`'geometric' | 'linear' | 'logarithmic'`). -/
inductive CoolingSchedule where
  | geometric
  | linear
  | logarithmic
deriving DecidableEq, Repr

/-- `_validate_problem_schema` common to PSO, GA, DE and ACOR: dimensions is
a positive integer, bounds has one `(lower, upper)` pair per dimension, and
`lower < upper` for every pair.  (There is no upper limit on dimensions in
these four engines.) -/
def problemSchemaOk (dimensions : ℤ) (bounds : List (ℚ × ℚ)) : Bool :=
  decide (0 < dimensions) &&
  decide ((bounds.length : ℤ) = dimensions) &&
  bounds.all (fun b => decide (b.1 < b.2))

/-- SA's `_validate_problem_schema`: like the common schema check but with
the additional platform constraint `dimensions ≤ 50`. -/
def saProblemSchemaOk (dimensions : ℤ) (bounds : List (ℚ × ℚ)) : Bool :=
  decide (0 < dimensions) &&
  decide (dimensions ≤ 50) &&
  decide ((bounds.length : ℤ) = dimensions) &&
  bounds.all (fun b => decide (b.1 < b.2))

/-- PSO `_validate_parameters`: swarm size at least 10, iterations in
`[1, 100]`, and not both acceleration coefficients zero.  The inertia
weight `w` is only type-checked (any value is allowed). -/
def psoValidateParams (swarmSize maxIterations : ℤ) (w c1 c2 : ℚ) : Bool :=
  decide (10 ≤ swarmSize) &&
  decide (1 ≤ maxIterations) &&
  decide (maxIterations ≤ 100) &&
  !(decide (c1 = 0) && decide (c2 = 0))

/-- GA `_validate_parameters`. -/
def gaValidateParams (populationSize maxIterations : ℤ)
    (crossoverRate mutationRate : ℚ) (tournamentSize : ℤ) : Bool :=
  decide (10 ≤ populationSize) &&
  decide (1 ≤ maxIterations) &&
  decide (maxIterations ≤ 100) &&
  decide (0 ≤ crossoverRate) && decide (crossoverRate ≤ 1) &&
  decide (0 ≤ mutationRate) && decide (mutationRate ≤ 1) &&
  decide (2 ≤ tournamentSize) &&
  decide (tournamentSize ≤ populationSize)

/-- DE `_validate_parameters`: note that it bounds `max_iterations` below by
1 but imposes NO upper cap, unlike the other four engines. -/
def deValidateParams (populationSize maxIterations : ℤ) (F CR : ℚ)
    (strategy : DEStrategy) (boundaryHandling : BoundaryHandling)
    (timeout : ℚ) : Bool :=
  decide (10 ≤ populationSize) &&
  decide (1 ≤ maxIterations) &&
  (decide (0 < F) && decide (F ≤ 2)) &&
  (decide (0 ≤ CR) && decide (CR ≤ 1)) &&
  decide (strategy ∈ [DEStrategy.rand1bin, DEStrategy.best1bin, DEStrategy.rand2bin]) &&
  decide (boundaryHandling ∈
    [BoundaryHandling.clipBound, BoundaryHandling.reflectBound, BoundaryHandling.wrapBound]) &&
  decide (0 < timeout)

/-- ACOR `_validate_parameters`. -/
def acoValidateParams (colonySize maxIterations archiveSize : ℤ) (q xi : ℚ) : Bool :=
  decide (5 ≤ colonySize) &&
  decide (1 ≤ maxIterations) &&
  decide (maxIterations ≤ 100) &&
  decide (1 ≤ archiveSize) &&
  decide (archiveSize ≤ colonySize) &&
  decide (0 < q) &&
  (decide (0 < xi) && decide (xi ≤ 1))

/-- SA `_validate_parameters` (invoked from `initialize`, before the initial
solution is drawn and before the first fitness evaluation). -/
def saValidateParams (initialTemp finalTemp coolingRate : ℚ) (maxIterations : ℤ)
    (neighborStd : ℚ) (coolingSchedule : CoolingSchedule) : Bool :=
  decide (0 < initialTemp) &&
  decide (0 < finalTemp) &&
  decide (finalTemp < initialTemp) &&
  (if coolingSchedule = CoolingSchedule.geometric then
    decide (0 < coolingRate) && decide (coolingRate < 1)
  else true) &&
  decide (1 ≤ maxIterations) &&
  decide (maxIterations ≤ 100) &&
  decide (0 < neighborStd) &&
  decide (neighborStd ≤ 1)

/-- PSO construction (`__init__`): the problem schema and the PSO parameters
are both validated before any search state exists; a `false` result means a
`ValidationError` is raised from the constructor, before any fitness
evaluation can occur. -/
def psoConstructOk (dimensions : ℤ) (bounds : List (ℚ × ℚ))
    (swarmSize maxIterations : ℤ) (w c1 c2 : ℚ) : Bool :=
  problemSchemaOk dimensions bounds && psoValidateParams swarmSize maxIterations w c1 c2

/-- First-occurrence best selection: `np.argmin`/`np.argmax` over a list of
(vector, fitness) pairs, returning the pair at the first best index.  The
empty case cannot arise (population sizes are validated to be positive). -/
def selectBest {V K : Type} [LinearOrder K] [Inhabited V] [Inhabited K]
    (obj : Objective) : List (V × K) → V × K
  | [] => (default, default)
  | x :: xs => xs.foldl (fun acc y => if isBetter obj y.2 acc.2 then y else acc) x

theorem selectBest_mem {V K : Type} [LinearOrder K] [Inhabited V] [Inhabited K]
    (obj : Objective) (x : V × K) (xs : List (V × K)) :
    selectBest obj (x :: xs) ∈ x :: xs := by
  suffices h : ∀ (l : List (V × K)) (a : V × K),
      l.foldl (fun acc y => if isBetter obj y.2 acc.2 then y else acc) a ∈ a :: l by
    simpa [selectBest] using h xs x
  intro l
  induction l with
  | nil => intro a; simp
  | cons y ys ih =>
      intro a
      simp only [List.foldl_cons]
      by_cases hy : isBetter obj y.2 a.2 = true
      · rw [if_pos hy]
        exact List.mem_cons_of_mem a (ih y)
      · rw [if_neg hy]
        rcases List.mem_cons.mp (ih a) with h | h
        · exact List.mem_cons.mpr (Or.inl h)
        · exact List.mem_cons_of_mem a (List.mem_cons_of_mem y h)

theorem selectBest_mem_of_ne {V K : Type} [LinearOrder K] [Inhabited V] [Inhabited K]
    (obj : Objective) {l : List (V × K)} (h : l ≠ []) :
    selectBest obj l ∈ l := by
  cases l with
  | nil => exact absurd rfl h
  | cons x xs => exact selectBest_mem obj x xs

/-- Row access `population[j]` (the oracle guarantees `j` in range). -/
def getRow {α : Type} (pop : List (List α)) (j : ℕ) : List α := pop.getD j []

theorem getRow_mem {α : Type} {pop : List (List α)} {j : ℕ} (h : j < pop.length) :
    getRow pop j ∈ pop := by
  rw [getRow, List.getD_eq_getElem pop [] h]
  exact List.getElem_mem h

namespace PSO

/-- Immutable PSO configuration: problem descriptor plus validated PSO
parameters (`w`, `c1`, `c2`, iteration cap, timeout = 30 s). -/
structure Config where
  objective : Objective
  bounds : List (ℚ × ℚ)
  fitness : List ℚ → ℚ
  w : ℚ
  c1 : ℚ
  c2 : ℚ
  maxIterations : ℕ
  timeout : ℚ

/-- One particle: position and velocity plus personal best. -/
structure Particle where
  position : List ℚ
  velocity : List ℚ
  bestPosition : List ℚ
  bestScore : ℚ

/-- PSO search state. -/
structure State where
  swarm : List Particle
  globalBestPosition : List ℚ
  globalBestScore : ℚ
  convergenceCurve : List ℚ

/-- One particle's movement: velocity update with per-dimension uniform
draws `r1, r2`, position update, then bounds clipping of the position (the
velocity is stored unclipped, as in the source). -/
def moveParticle (cfg : Config) (gb : List ℚ) (p : Particle)
    (r1 r2 : List ℚ) : Particle :=
  let cognitive := vmul (vscale cfg.c1 r1) (vsub p.bestPosition p.position)
  let social := vmul (vscale cfg.c2 r2) (vsub gb p.position)
  let newVel := vadd (vadd (vscale cfg.w p.velocity) cognitive) social
  let newPos := clipVec cfg.bounds (vadd p.position newVel)
  { p with position := newPos, velocity := newVel }

/-- Movement phase over the whole swarm; `rand i` supplies particle `i`'s
`(r1, r2)` uniform draws. -/
def moveSwarm (cfg : Config) (gb : List ℚ) (rand : ℕ → List ℚ × List ℚ) :
    ℕ → List Particle → List Particle
  | _, [] => []
  | i, p :: rest =>
      moveParticle cfg gb p (rand i).1 (rand i).2 :: moveSwarm cfg gb rand (i + 1) rest

/-- Evaluation phase: visit particles in order, re-evaluating fitness; a
particle improving on its personal best updates it, and (nested inside that
update, as in the source) an improvement on the global best updates the
global best. -/
def evalFold (cfg : Config) :
    List Particle → List ℚ × ℚ → List Particle × (List ℚ × ℚ)
  | [], g => ([], g)
  | p :: rest, g =>
      let fit := cfg.fitness p.position
      if isBetter cfg.objective fit p.bestScore then
        let g2 := if isBetter cfg.objective fit g.2 then (p.position, fit) else g
        let out := evalFold cfg rest g2
        ({ p with bestPosition := p.position, bestScore := fit } :: out.1, out.2)
      else
        let out := evalFold cfg rest g
        (p :: out.1, out.2)

/-- One iteration of the PSO `optimize` loop: move all particles, then
evaluate, then record the global best on the convergence curve. -/
def step (cfg : Config) (st : State) (rand : ℕ → List ℚ × List ℚ) : State :=
  let moved := moveSwarm cfg st.globalBestPosition rand 0 st.swarm
  let out := evalFold cfg moved (st.globalBestPosition, st.globalBestScore)
  { swarm := out.1
    globalBestPosition := out.2.1
    globalBestScore := out.2.2
    convergenceCurve := st.convergenceCurve ++ [out.2.2] }

/-- The swarm built by `initialize` from the drawn positions and velocities:
each particle's personal best starts at its initial position with its
evaluated fitness. -/
def initSwarm (cfg : Config) (draws : List (List ℚ × List ℚ)) : List Particle :=
  draws.map (fun d =>
    { position := d.1, velocity := d.2, bestPosition := d.1,
      bestScore := cfg.fitness d.1 : Particle })

/-- The global best chosen by `initialize`: the best personal best
(`np.argmin`/`np.argmax` over the initial scores). -/
def initBest (cfg : Config) (draws : List (List ℚ × List ℚ)) : List ℚ × ℚ :=
  selectBest cfg.objective
    ((initSwarm cfg draws).map (fun p => (p.bestPosition, p.bestScore)))

/-- `initialize`: the swarm is built from the drawn positions and
velocities (uniform within bounds resp. within ±10% of each range), each
particle's personal best is its initial position, and the global best is
the best personal best; the first convergence point is recorded. -/
def init (cfg : Config) (draws : List (List ℚ × List ℚ)) : State :=
  { swarm := initSwarm cfg draws
    globalBestPosition := (initBest cfg draws).1
    globalBestScore := (initBest cfg draws).2
    convergenceCurve := [(initBest cfg draws).2] }

/-- The `optimize` loop: `i` is the iteration index, the second argument the
remaining iteration budget; `clock i` is the elapsed wall-clock time seen at
the top-of-iteration timeout check, and a reading above the timeout breaks
the loop. -/
def loop (cfg : Config) (clock : ℕ → ℚ) (rand : ℕ → ℕ → List ℚ × List ℚ) :
    ℕ → ℕ → State → State
  | _, 0, st => st
  | i, n + 1, st =>
      if cfg.timeout < clock i then st
      else loop cfg clock rand (i + 1) n (step cfg st (rand i))

/-- `optimize`: run up to `max_iterations` iterations from iteration 0. -/
def optimize (cfg : Config) (clock : ℕ → ℚ) (rand : ℕ → ℕ → List ℚ × List ℚ)
    (st : State) : State :=
  loop cfg clock rand 0 cfg.maxIterations st

/-- Bounds invariant for PSO: every particle position and personal-best
position, and the global-best position, lie within the problem bounds; the
stored velocities have one coordinate per dimension. -/
def Inv (cfg : Config) (st : State) : Prop :=
  (∀ p ∈ st.swarm,
    inBounds cfg.bounds p.position ∧ inBounds cfg.bounds p.bestPosition ∧
      p.velocity.length = cfg.bounds.length) ∧
  inBounds cfg.bounds st.globalBestPosition

/-- Trace invariant for PSO: the convergence curve is monotone and ends at
the current global best. -/
def TraceInv (cfg : Config) (st : State) : Prop :=
  st.convergenceCurve.getLast? = some st.globalBestScore ∧
  traceMonotone cfg.objective st.convergenceCurve

/-- Well-formed per-particle uniform draws: `r1` and `r2` have one entry per
dimension (`np.random.random(self.dimensions)`). -/
def WFRand (cfg : Config) (rand : ℕ → List ℚ × List ℚ) : Prop :=
  ∀ i, (rand i).1.length = cfg.bounds.length ∧ (rand i).2.length = cfg.bounds.length

/-- The per-particle predicate carried by the bounds invariant. -/
def PartOk (cfg : Config) (p : Particle) : Prop :=
  inBounds cfg.bounds p.position ∧ inBounds cfg.bounds p.bestPosition ∧
    p.velocity.length = cfg.bounds.length

theorem moveParticle_ok {cfg : Config} {gb : List ℚ} {p : Particle} {r1 r2 : List ℚ}
    (hv : validBounds cfg.bounds) (hp : PartOk cfg p)
    (h1 : r1.length = cfg.bounds.length) (h2 : r2.length = cfg.bounds.length)
    (hgb : inBounds cfg.bounds gb) :
    PartOk cfg (moveParticle cfg gb p r1 r2) ∧
      (moveParticle cfg gb p r1 r2).bestPosition = p.bestPosition ∧
      (moveParticle cfg gb p r1 r2).bestScore = p.bestScore := by
  obtain ⟨hpos, hbp, hvel⟩ := hp
  have hposl := inBounds_length hpos
  have hbpl := inBounds_length hbp
  have hgbl := inBounds_length hgb
  have hnv : (vadd (vadd (vscale cfg.w p.velocity)
      (vmul (vscale cfg.c1 r1) (vsub p.bestPosition p.position)))
      (vmul (vscale cfg.c2 r2) (vsub gb p.position))).length = cfg.bounds.length := by
    simp [length_vadd, length_vmul, length_vscale, length_vsub, hposl, hbpl, hgbl, hvel, h1, h2]
  refine ⟨⟨?_, ?_, ?_⟩, rfl, rfl⟩
  · exact inBounds_clipVec_of_valid hv
      (by simp [length_vadd, hposl, hnv])
  · exact hbp
  · exact hnv

theorem moveSwarm_ok {cfg : Config} {gb : List ℚ} {rand : ℕ → List ℚ × List ℚ}
    (hv : validBounds cfg.bounds) (hr : WFRand cfg rand) (hgb : inBounds cfg.bounds gb) :
    ∀ (i : ℕ) (l : List Particle), (∀ p ∈ l, PartOk cfg p) →
      ∀ q ∈ moveSwarm cfg gb rand i l, PartOk cfg q
  | _, [], _ => by simp [moveSwarm]
  | i, p :: rest, hl => by
      intro q hq
      rcases List.mem_cons.mp hq with h | h
      · subst h
        exact (moveParticle_ok hv (hl p (by simp)) (hr i).1 (hr i).2 hgb).1
      · exact moveSwarm_ok hv hr hgb (i + 1) rest
          (fun p hp => hl p (List.mem_cons_of_mem _ hp)) q h

theorem evalFold_ok {cfg : Config} :
    ∀ (l : List Particle) (g : List ℚ × ℚ),
      (∀ p ∈ l, PartOk cfg p) → inBounds cfg.bounds g.1 →
      (∀ p ∈ (evalFold cfg l g).1, PartOk cfg p) ∧
        inBounds cfg.bounds (evalFold cfg l g).2.1 ∧
        notWorse cfg.objective g.2 (evalFold cfg l g).2.2
  | [], g, _, hg => ⟨by simp [evalFold], by simpa [evalFold] using hg, by
      simp only [evalFold]; exact notWorse_refl _ _⟩
  | p :: rest, g, hl, hg => by
      have hp := hl p (by simp)
      have hrest : ∀ q ∈ rest, PartOk cfg q := fun q hq => hl q (List.mem_cons_of_mem _ hq)
      by_cases hfit : isBetter cfg.objective (cfg.fitness p.position) p.bestScore = true
      · set g2 : List ℚ × ℚ :=
          if isBetter cfg.objective (cfg.fitness p.position) g.2 then (p.position, cfg.fitness p.position) else g with hg2
        have hg2b : inBounds cfg.bounds g2.1 := by
          rw [hg2]; split
          · exact hp.1
          · exact hg
        have hg2w : notWorse cfg.objective g.2 g2.2 := by
          rw [hg2]; split
          · exact notWorse_of_isBetter (by assumption)
          · exact notWorse_refl _ _
        have ih := evalFold_ok rest g2 hrest hg2b
        refine ⟨?_, ?_, ?_⟩
        · intro q hq
          simp only [evalFold, hfit, if_pos] at hq
          rcases List.mem_cons.mp hq with h | h
          · subst h
            exact ⟨hp.1, hp.1, hp.2.2⟩
          · exact ih.1 q h
        · simpa only [evalFold, hfit, if_pos] using ih.2.1
        · refine notWorse_trans hg2w ?_
          simpa only [evalFold, hfit, if_pos] using ih.2.2
      · have ih := evalFold_ok rest g hrest hg
        refine ⟨?_, ?_, ?_⟩
        · intro q hq
          simp only [evalFold, hfit, if_neg, Bool.false_eq_true, not_false_iff] at hq
          rcases List.mem_cons.mp hq with h | h
          · subst h; exact hp
          · exact ih.1 q h
        · simpa only [evalFold, hfit, if_neg, Bool.false_eq_true, not_false_iff] using ih.2.1
        · simpa only [evalFold, hfit, if_neg, Bool.false_eq_true, not_false_iff] using ih.2.2

theorem pso_step_inv {cfg : Config} {st : State} {rand : ℕ → List ℚ × List ℚ}
    (hv : validBounds cfg.bounds) (hst : Inv cfg st) (hr : WFRand cfg rand) :
    Inv cfg (step cfg st rand) := by
  obtain ⟨hswarm, hgb⟩ := hst
  have hmoved := moveSwarm_ok hv hr hgb 0 st.swarm (fun p hp => (hswarm p hp))
  have hef := evalFold_ok (moveSwarm cfg st.globalBestPosition rand 0 st.swarm)
    (st.globalBestPosition, st.globalBestScore) hmoved hgb
  exact ⟨hef.1, hef.2.1⟩

theorem step_notWorse {cfg : Config} {st : State} {rand : ℕ → List ℚ × List ℚ}
    (hv : validBounds cfg.bounds) (hst : Inv cfg st) (hr : WFRand cfg rand) :
    notWorse cfg.objective st.globalBestScore (step cfg st rand).globalBestScore := by
  have hmoved := moveSwarm_ok hv hr hst.2 0 st.swarm (fun p hp => hst.1 p hp)
  have hef := evalFold_ok (moveSwarm cfg st.globalBestPosition rand 0 st.swarm)
    (st.globalBestPosition, st.globalBestScore) hmoved hst.2
  exact hef.2.2

theorem pso_step_trace {cfg : Config} {st : State} {rand : ℕ → List ℚ × List ℚ}
    (hv : validBounds cfg.bounds) (hst : Inv cfg st) (hr : WFRand cfg rand)
    (ht : TraceInv cfg st) : TraceInv cfg (step cfg st rand) := by
  obtain ⟨hlast, hchain⟩ := ht
  have hw := step_notWorse hv hst hr
  constructor
  · simp [step]
  · show List.Chain' _ (st.convergenceCurve ++ [(step cfg st rand).globalBestScore])
    rw [List.chain'_append]
    refine ⟨hchain, List.chain'_singleton _, ?_⟩
    intro x hx y hy
    rw [hlast] at hx
    simp only [Option.mem_def, Option.some_inj] at hx
    simp only [List.head?_cons, Option.mem_def, Option.some_inj] at hy
    subst hx; subst hy
    exact hw

theorem pso_init_inv {cfg : Config} {draws : List (List ℚ × List ℚ)}
    (hne : draws ≠ [])
    (hd : ∀ d ∈ draws, inBounds cfg.bounds d.1 ∧ d.2.length = cfg.bounds.length) :
    Inv cfg (init cfg draws) ∧ TraceInv cfg (init cfg draws) := by
  have hswarm : ∀ p ∈ initSwarm cfg draws, PartOk cfg p := by
    intro p hp
    simp only [initSwarm, List.mem_map] at hp
    obtain ⟨d, hdm, rfl⟩ := hp
    exact ⟨(hd d hdm).1, (hd d hdm).1, (hd d hdm).2⟩
  have hps : (initSwarm cfg draws).map (fun p => (p.bestPosition, p.bestScore)) ≠ [] := by
    simpa [initSwarm] using hne
  have hmem := selectBest_mem_of_ne cfg.objective hps
  rcases List.mem_map.mp hmem with ⟨p, hpm, hpe⟩
  refine ⟨⟨hswarm, ?_⟩, ?_, ?_⟩
  · show inBounds cfg.bounds (initBest cfg draws).1
    rw [initBest, ← hpe]
    exact (hswarm p hpm).2.1
  · simp [init]
  · exact List.chain'_singleton _

/-- The loop preserves both invariants from any starting state. -/
theorem pso_loop_inv {cfg : Config} {clock : ℕ → ℚ} {rand : ℕ → ℕ → List ℚ × List ℚ}
    (hv : validBounds cfg.bounds) (hr : ∀ it, WFRand cfg (rand it)) :
    ∀ (i n : ℕ) (st : State), Inv cfg st → TraceInv cfg st →
      Inv cfg (loop cfg clock rand i n st) ∧ TraceInv cfg (loop cfg clock rand i n st)
  | _, 0, st, h1, h2 => ⟨h1, h2⟩
  | i, n + 1, st, h1, h2 => by
      by_cases hc : cfg.timeout < clock i
      · simpa [loop, hc] using And.intro h1 h2
      · have hstep := pso_step_inv hv h1 (hr i)
        have htr := pso_step_trace hv h1 (hr i) h2
        simpa [loop, hc] using pso_loop_inv hv hr (i + 1) n (step cfg st (rand i)) hstep htr

end PSO

namespace DE

/-- DE configuration: problem descriptor plus validated DE parameters. -/
structure Config where
  objective : Objective
  bounds : List (ℚ × ℚ)
  fitness : List ℚ → ℚ
  populationSize : ℕ
  maxIterations : ℕ
  F : ℚ
  CR : ℚ
  strategy : DEStrategy
  boundaryHandling : BoundaryHandling
  timeout : ℚ

/-- Exact rational counterpart of the Python float `%` (sign of the
divisor): `a - b * ⌊a / b⌋`. -/
def qmod (a b : ℚ) : ℚ := a - b * ⌊a / b⌋

theorem qmod_nonneg {a b : ℚ} (hb : 0 < b) : 0 ≤ qmod a b := by
  have h := Int.floor_le (a / b)
  have : b * (⌊a / b⌋ : ℚ) ≤ b * (a / b) := by
    exact mul_le_mul_of_nonneg_left h (le_of_lt hb)
  rw [mul_div_cancel₀ a (ne_of_gt hb)] at this
  simpa [qmod] using this

theorem qmod_lt {a b : ℚ} (hb : 0 < b) : qmod a b < b := by
  have h := Int.lt_floor_add_one (a / b)
  have h2 : a / b * b < ((⌊a / b⌋ : ℚ) + 1) * b := by
    exact mul_lt_mul_of_pos_right h hb
  rw [div_mul_cancel₀ a (ne_of_gt hb)] at h2
  have : a < b * ⌊a / b⌋ + b := by ring_nf at h2 ⊢; linarith
  simpa [qmod] using by linarith

/-- One coordinate of the `reflect` boundary policy before the final clip:
mirror below the lower edge, then mirror the (possibly updated) value above
the upper edge. -/
def reflectOnce (lo hi x : ℚ) : ℚ :=
  let x1 := if x < lo then lo + (lo - x) else x
  if hi < x1 then hi - (x1 - hi) else x1

/-- One coordinate of the `wrap` boundary policy:
`lower + ((x - lower) % (upper - lower))`. -/
def wrapCoord (lo hi x : ℚ) : ℚ := lo + qmod (x - lo) (hi - lo)

theorem wrapCoord_mem {lo hi : ℚ} (x : ℚ) (h : lo < hi) :
    lo ≤ wrapCoord lo hi x ∧ wrapCoord lo hi x ≤ hi := by
  have h1 := qmod_nonneg (a := x - lo) (sub_pos.mpr h)
  have h2 := qmod_lt (a := x - lo) (sub_pos.mpr h)
  constructor
  · simp only [wrapCoord]; linarith
  · simp only [wrapCoord]; linarith

/-- `_apply_boundary`: project a mutant/trial vector back into the search
box by the configured policy. -/
def applyBoundary (cfg : Config) (v : List ℚ) : List ℚ :=
  match cfg.boundaryHandling with
  | .clipBound => clipVec cfg.bounds v
  | .reflectBound =>
      clipVec cfg.bounds (List.zipWith (fun b x => reflectOnce b.1 b.2 x) cfg.bounds v)
  | .wrapBound => List.zipWith (fun b x => wrapCoord b.1 b.2 x) cfg.bounds v

theorem inBounds_zipWith {f : (ℚ × ℚ) → ℚ → ℚ}
    (hf : ∀ b : ℚ × ℚ, ∀ x : ℚ, b.1 < b.2 → b.1 ≤ f b x ∧ f b x ≤ b.2) :
    ∀ (bs : List (ℚ × ℚ)) (xs : List ℚ), validBounds bs → xs.length = bs.length →
      inBounds bs (List.zipWith f bs xs)
  | [], [], _, _ => trivial
  | b :: bs, x :: xs, hv, hl => by
      refine ⟨hf b x (hv b (by simp)), ?_⟩
      exact inBounds_zipWith hf bs xs (fun p hp => hv p (by simp [hp])) (by simpa using hl)
  | _ :: _, [], _, hl => by simp at hl
  | [], _ :: _, _, hl => by simp at hl

theorem applyBoundary_inBounds {cfg : Config} (hv : validBounds cfg.bounds)
    {v : List ℚ} (hl : v.length = cfg.bounds.length) :
    inBounds cfg.bounds (applyBoundary cfg v) := by
  cases hb : cfg.boundaryHandling with
  | clipBound => simpa [applyBoundary, hb] using inBounds_clipVec_of_valid hv hl
  | reflectBound =>
      simp only [applyBoundary, hb]
      exact inBounds_clipVec_of_valid hv (by simp [hl])
  | wrapBound =>
      simp only [applyBoundary, hb]
      exact inBounds_zipWith (fun b x hlt => wrapCoord_mem x hlt) cfg.bounds v hv hl

theorem length_applyBoundary (cfg : Config) (v : List ℚ) :
    (applyBoundary cfg v).length = min cfg.bounds.length v.length := by
  rcases hb : cfg.boundaryHandling <;>
    simp only [applyBoundary, hb, length_clipVec, List.length_zipWith] <;> omega

/-- The per-target randomness: five candidate row indices (sampled without
replacement from the index set excluding the target; only the first 2, 3 or
5 are consumed depending on the strategy), the per-dimension crossover
draws, and the fallback forced crossover index. -/
structure TargetRand where
  i1 : ℕ
  i2 : ℕ
  i3 : ℕ
  i4 : ℕ
  i5 : ℕ
  maskRands : List ℚ
  forcedIdx : ℕ

/-- The three mutation strategies `rand/1`, `best/1`, `rand/2`. -/
def mutate (cfg : Config) (pop : List (List ℚ)) (best : List ℚ) (r : TargetRand) :
    List ℚ :=
  match cfg.strategy with
  | .rand1bin =>
      vadd (getRow pop r.i1) (vscale cfg.F (vsub (getRow pop r.i2) (getRow pop r.i3)))
  | .best1bin =>
      vadd best (vscale cfg.F (vsub (getRow pop r.i1) (getRow pop r.i2)))
  | .rand2bin =>
      vadd (getRow pop r.i1) (vscale cfg.F
        (vadd (vsub (getRow pop r.i2) (getRow pop r.i3))
              (vsub (getRow pop r.i4) (getRow pop r.i5))))

/-- The crossover mask: `np.random.rand(dims) < CR`, with one random
dimension forced to come from the mutant when no draw passes. -/
def crossMask (CR : ℚ) (rands : List ℚ) (forcedIdx : ℕ) : List Bool :=
  let mask := rands.map (fun r => decide (r < CR))
  if mask.any id then mask else mask.set forcedIdx true

/-- `np.where(mask, mutant, target)`. -/
def npWhere : List Bool → List ℚ → List ℚ → List ℚ
  | m :: ms, a :: as, b :: bs => (if m then a else b) :: npWhere ms as bs
  | _, _, _ => []

/-- Binomial crossover: mix mutant and target per dimension by the mask. -/
def binomialCrossover (CR : ℚ) (rands : List ℚ) (forcedIdx : ℕ)
    (mutant target : List ℚ) : List ℚ :=
  npWhere (crossMask CR rands forcedIdx) mutant target

/-- Build the trial vector for one target: mutate, project, binomial
crossover, project again. -/
def trialFor (cfg : Config) (pop : List (List ℚ)) (best target : List ℚ)
    (r : TargetRand) : List ℚ :=
  let mutant := applyBoundary cfg (mutate cfg pop best r)
  let trial := binomialCrossover cfg.CR r.maskRands r.forcedIdx mutant target
  applyBoundary cfg trial

/-- DE search state once initialized (`initialize` has run). -/
structure LoopState where
  population : List (List ℚ)
  fitnessValues : List ℚ
  bestIndividual : List ℚ
  bestFitness : ℚ
  convergenceCurve : List ℚ

/-- Greedy selection for one target index `i`: the trial replaces the
target in place only if strictly better; the best-so-far is updated (nested
inside the replacement, as in the source) when the trial also beats it. -/
def processTarget (cfg : Config) (st : LoopState) (i : ℕ) (r : TargetRand) :
    LoopState :=
  let target := getRow st.population i
  let trial := trialFor cfg st.population st.bestIndividual target r
  let tf := cfg.fitness trial
  if isBetter cfg.objective tf (st.fitnessValues.getD i 0) then
    if isBetter cfg.objective tf st.bestFitness then
      { st with
        population := st.population.set i trial
        fitnessValues := st.fitnessValues.set i tf
        bestIndividual := trial
        bestFitness := tf }
    else
      { st with
        population := st.population.set i trial
        fitnessValues := st.fitnessValues.set i tf }
  else st

/-- Inner loop over the target indices `0, ..., population_size - 1`; the
population is updated in place so later targets see earlier replacements. -/
def innerLoop (cfg : Config) (tr : ℕ → TargetRand) : ℕ → ℕ → LoopState → LoopState
  | _, 0, st => st
  | i, n + 1, st => innerLoop cfg tr (i + 1) n (processTarget cfg st i (tr i))

/-- One iteration of the DE `optimize` loop: process every target, then
record the best fitness on the convergence curve. -/
def step (cfg : Config) (st : LoopState) (tr : ℕ → TargetRand) : LoopState :=
  let st2 := innerLoop cfg tr 0 cfg.populationSize st
  { st2 with convergenceCurve := st2.convergenceCurve ++ [st2.bestFitness] }

/-- The best initial individual (`np.argmin`/`np.argmax` over the initial
fitness values). -/
def initBest (cfg : Config) (draws : List (List ℚ)) : List ℚ × ℚ :=
  selectBest cfg.objective (draws.map (fun d => (d, cfg.fitness d)))

/-- `initialize`: the population is the drawn matrix (uniform within
bounds), fitness is evaluated row by row, the best row is recorded, and the
convergence curve is reset to the single initial point. -/
def initState (cfg : Config) (draws : List (List ℚ)) : LoopState :=
  { population := draws
    fitnessValues := draws.map cfg.fitness
    bestIndividual := (initBest cfg draws).1
    bestFitness := (initBest cfg draws).2
    convergenceCurve := [(initBest cfg draws).2] }

/-- The `optimize` iteration loop with the top-of-iteration timeout check;
returns the final state together with the iteration count reported by
`get_results` (`iteration + 1` where `iteration` is the loop variable's
final value, or `0` when the loop never bound it). -/
def loop (cfg : Config) (clock : ℕ → ℚ) (rands : ℕ → ℕ → TargetRand) :
    ℕ → ℕ → LoopState → LoopState × ℕ
  | i, 0, st => (st, i)
  | i, n + 1, st =>
      if cfg.timeout < clock i then (st, i + 1)
      else loop cfg clock rands (i + 1) n (step cfg st (rands i))

/-- `optimize`: a `none` engine state means `initialize` has never run
(`self.population is None`), in which case `optimize` performs the full
initialization itself before entering the loop. -/
def optimize (cfg : Config) (clock : ℕ → ℚ) (rands : ℕ → ℕ → TargetRand)
    (initDraws : List (List ℚ)) (eng : Option LoopState) : LoopState × ℕ :=
  match eng with
  | none => loop cfg clock rands 0 cfg.maxIterations (initState cfg initDraws)
  | some st => loop cfg clock rands 0 cfg.maxIterations st

/-- Bounds invariant for DE: every population row and the best individual
lie within bounds, and the population has the validated size. -/
def Inv (cfg : Config) (st : LoopState) : Prop :=
  (∀ v ∈ st.population, inBounds cfg.bounds v) ∧
  inBounds cfg.bounds st.bestIndividual ∧
  st.population.length = cfg.populationSize

/-- Trace invariant for DE. -/
def TraceInv (cfg : Config) (st : LoopState) : Prop :=
  st.convergenceCurve.getLast? = some st.bestFitness ∧
  traceMonotone cfg.objective st.convergenceCurve

/-- Well-formed per-target randomness: candidate indices in range and one
crossover draw per dimension. -/
def WFRand (cfg : Config) (r : TargetRand) : Prop :=
  r.i1 < cfg.populationSize ∧ r.i2 < cfg.populationSize ∧ r.i3 < cfg.populationSize ∧
  r.i4 < cfg.populationSize ∧ r.i5 < cfg.populationSize ∧
  r.maskRands.length = cfg.bounds.length

theorem length_npWhere :
    ∀ (m : List Bool) (a b : List ℚ),
      (npWhere m a b).length = min m.length (min a.length b.length)
  | m :: ms, a :: as, b :: bs => by
      simp only [npWhere, List.length_cons, length_npWhere ms as bs]
      omega
  | [], _, _ => by simp [npWhere]
  | _ :: _, [], _ => by simp [npWhere]
  | _ :: _, _ :: _, [] => by simp [npWhere]

theorem length_crossMask (CR : ℚ) (rands : List ℚ) (forcedIdx : ℕ) :
    (crossMask CR rands forcedIdx).length = rands.length := by
  rw [crossMask]
  split <;> simp

theorem row_length {cfg : Config} {st : LoopState} (hinv : Inv cfg st) {j : ℕ}
    (hj : j < cfg.populationSize) :
    (getRow st.population j).length = cfg.bounds.length := by
  have hm : getRow st.population j ∈ st.population :=
    getRow_mem (by rw [hinv.2.2]; exact hj)
  exact inBounds_length (hinv.1 _ hm)

theorem mutate_length {cfg : Config} {st : LoopState} (hinv : Inv cfg st)
    {r : TargetRand} (hr : WFRand cfg r) :
    (mutate cfg st.population st.bestIndividual r).length = cfg.bounds.length := by
  obtain ⟨h1, h2, h3, h4, h5, _⟩ := hr
  have hb := inBounds_length hinv.2.1
  rcases hs : cfg.strategy <;>
    simp [mutate, hs, length_vadd, length_vsub, length_vscale,
      row_length hinv h1, row_length hinv h2, row_length hinv h3,
      row_length hinv h4, row_length hinv h5, hb]

theorem trialFor_inBounds {cfg : Config} {st : LoopState} (hv : validBounds cfg.bounds)
    (hinv : Inv cfg st) {i : ℕ} (hi : i < cfg.populationSize) {r : TargetRand}
    (hr : WFRand cfg r) :
    inBounds cfg.bounds
      (trialFor cfg st.population st.bestIndividual (getRow st.population i) r) := by
  have hmut := mutate_length hinv hr
  have hmutb : (applyBoundary cfg (mutate cfg st.population st.bestIndividual r)).length
      = cfg.bounds.length := by
    rw [length_applyBoundary, hmut]; omega
  have htar := row_length hinv hi
  have htrial : (binomialCrossover cfg.CR r.maskRands r.forcedIdx
      (applyBoundary cfg (mutate cfg st.population st.bestIndividual r))
      (getRow st.population i)).length = cfg.bounds.length := by
    rw [binomialCrossover, length_npWhere, length_crossMask, hr.2.2.2.2.2, hmutb, htar]
    omega
  exact applyBoundary_inBounds hv htrial

theorem processTarget_inv {cfg : Config} {st : LoopState} (hv : validBounds cfg.bounds)
    (hinv : Inv cfg st) {i : ℕ} (hi : i < cfg.populationSize) {r : TargetRand}
    (hr : WFRand cfg r) :
    Inv cfg (processTarget cfg st i r) ∧
      notWorse cfg.objective st.bestFitness (processTarget cfg st i r).bestFitness ∧
      (processTarget cfg st i r).convergenceCurve = st.convergenceCurve := by
  have htrial := trialFor_inBounds hv hinv hi hr
  set trial := trialFor cfg st.population st.bestIndividual (getRow st.population i) r
    with htr
  set tf := cfg.fitness trial with htf
  have hmemset : ∀ v ∈ st.population.set i trial, inBounds cfg.bounds v := by
    intro v hvm
    rcases List.mem_or_eq_of_mem_set hvm with h | h
    · exact hinv.1 v h
    · rw [h]; exact htrial
  have hlenset : (st.population.set i trial).length = cfg.populationSize := by
    rw [List.length_set]; exact hinv.2.2
  rw [processTarget]
  by_cases hc1 : isBetter cfg.objective tf (st.fitnessValues.getD i 0) = true
  · by_cases hc2 : isBetter cfg.objective tf st.bestFitness = true
    · simp only [← htr, ← htf, hc1, hc2, if_pos]
      exact ⟨⟨hmemset, htrial, hlenset⟩, notWorse_of_isBetter hc2, by trivial⟩
    · simp only [← htr, ← htf, hc1, if_pos, hc2, Bool.false_eq_true, if_neg,
        not_false_iff]
      exact ⟨⟨hmemset, hinv.2.1, hlenset⟩, notWorse_refl _ _, by trivial⟩
  · simp only [← htr, ← htf, hc1, Bool.false_eq_true, if_neg, not_false_iff]
    exact ⟨hinv, notWorse_refl _ _, by trivial⟩

theorem de_innerLoop_inv {cfg : Config} {tr : ℕ → TargetRand} (hv : validBounds cfg.bounds)
    (hwf : ∀ j, WFRand cfg (tr j)) :
    ∀ (i n : ℕ) (st : LoopState), i + n ≤ cfg.populationSize → Inv cfg st →
      Inv cfg (innerLoop cfg tr i n st) ∧
        notWorse cfg.objective st.bestFitness (innerLoop cfg tr i n st).bestFitness ∧
        (innerLoop cfg tr i n st).convergenceCurve = st.convergenceCurve
  | _, 0, st, _, hinv => ⟨hinv, notWorse_refl _ _, rfl⟩
  | i, n + 1, st, hle, hinv => by
      have hi : i < cfg.populationSize := by omega
      have hp := processTarget_inv hv hinv hi (hwf i)
      have ih := de_innerLoop_inv hv hwf (i + 1) n (processTarget cfg st i (tr i))
        (by omega) hp.1
      simp only [innerLoop]
      exact ⟨ih.1, notWorse_trans hp.2.1 ih.2.1, by rw [ih.2.2, hp.2.2]⟩

theorem de_step_inv {cfg : Config} {st : LoopState} {tr : ℕ → TargetRand}
    (hv : validBounds cfg.bounds) (hwf : ∀ j, WFRand cfg (tr j)) (hinv : Inv cfg st) :
    Inv cfg (step cfg st tr) ∧
      notWorse cfg.objective st.bestFitness (step cfg st tr).bestFitness := by
  have hil := de_innerLoop_inv hv hwf 0 cfg.populationSize st (by omega) hinv
  exact ⟨⟨hil.1.1, hil.1.2.1, hil.1.2.2⟩, hil.2.1⟩

theorem de_step_trace {cfg : Config} {st : LoopState} {tr : ℕ → TargetRand}
    (hv : validBounds cfg.bounds) (hwf : ∀ j, WFRand cfg (tr j)) (hinv : Inv cfg st)
    (ht : TraceInv cfg st) : TraceInv cfg (step cfg st tr) := by
  obtain ⟨hlast, hchain⟩ := ht
  have hil := de_innerLoop_inv hv hwf 0 cfg.populationSize st (by omega) hinv
  constructor
  · simp [step]
  · show List.Chain' _ ((innerLoop cfg tr 0 cfg.populationSize st).convergenceCurve
      ++ [(innerLoop cfg tr 0 cfg.populationSize st).bestFitness])
    rw [hil.2.2, List.chain'_append]
    refine ⟨hchain, List.chain'_singleton _, ?_⟩
    intro x hx y hy
    rw [hlast] at hx
    simp only [Option.mem_def, Option.some_inj] at hx
    simp only [List.head?_cons, Option.mem_def, Option.some_inj] at hy
    subst hx; subst hy
    exact hil.2.1

theorem de_initState_inv {cfg : Config} {draws : List (List ℚ)} (hne : draws ≠ [])
    (hd : ∀ d ∈ draws, inBounds cfg.bounds d)
    (hlen : draws.length = cfg.populationSize) :
    Inv cfg (initState cfg draws) ∧ TraceInv cfg (initState cfg draws) := by
  have hps : draws.map (fun d => (d, cfg.fitness d)) ≠ [] := by simpa using hne
  have hmem := selectBest_mem_of_ne cfg.objective hps
  rcases List.mem_map.mp hmem with ⟨d, hdm, hde⟩
  refine ⟨⟨hd, ?_, hlen⟩, ?_, ?_⟩
  · show inBounds cfg.bounds (initBest cfg draws).1
    rw [initBest, ← hde]
    exact hd d hdm
  · simp [initState]
  · exact List.chain'_singleton _

theorem de_loop_inv {cfg : Config} {clock : ℕ → ℚ} {rands : ℕ → ℕ → TargetRand}
    (hv : validBounds cfg.bounds) (hwf : ∀ it j, WFRand cfg (rands it j)) :
    ∀ (i n : ℕ) (st : LoopState), Inv cfg st → TraceInv cfg st →
      Inv cfg (loop cfg clock rands i n st).1 ∧ TraceInv cfg (loop cfg clock rands i n st).1
  | _, 0, st, h1, h2 => ⟨h1, h2⟩
  | i, n + 1, st, h1, h2 => by
      by_cases hc : cfg.timeout < clock i
      · simpa [loop, hc] using And.intro h1 h2
      · have hstep := de_step_inv hv (hwf i) h1
        have htr := de_step_trace hv (hwf i) h1 h2
        simpa [loop, hc] using
          de_loop_inv hv hwf (i + 1) n (step cfg st (rands i)) hstep.1 htr

theorem processTarget_curve (cfg : Config) (st : LoopState) (i : ℕ) (r : TargetRand) :
    (processTarget cfg st i r).convergenceCurve = st.convergenceCurve := by
  rw [processTarget]
  split
  · split <;> rfl
  · rfl

theorem innerLoop_curve (cfg : Config) (tr : ℕ → TargetRand) :
    ∀ (i n : ℕ) (st : LoopState),
      (innerLoop cfg tr i n st).convergenceCurve = st.convergenceCurve
  | _, 0, st => rfl
  | i, n + 1, st => by
      rw [innerLoop, innerLoop_curve cfg tr (i + 1) n, processTarget_curve]

/-! Lemmas about the binomial crossover (claim C7). -/

theorem npWhere_getD :
    ∀ (m : List Bool) (a b : List ℚ) (d : ℕ), d < m.length → d < a.length →
      d < b.length →
      (npWhere m a b).getD d 0 =
        if m.getD d false then a.getD d 0 else b.getD d 0
  | mh :: ms, ah :: as, bh :: bs, 0, _, _, _ => by simp [npWhere]
  | mh :: ms, ah :: as, bh :: bs, d + 1, hm, ha, hb => by
      simpa [npWhere] using npWhere_getD ms as bs d (by simpa using hm)
        (by simpa using ha) (by simpa using hb)

theorem crossMask_exists_true {CR : ℚ} {rands : List ℚ} {forcedIdx : ℕ}
    (hf : forcedIdx < rands.length) :
    ∃ d, d < (crossMask CR rands forcedIdx).length ∧
      (crossMask CR rands forcedIdx).getD d false = true := by
  rw [crossMask]
  by_cases hany : (rands.map (fun r => decide (r < CR))).any id = true
  · rw [if_pos hany]
    rcases List.any_eq_true.mp hany with ⟨x, hxm, hx⟩
    rcases List.getElem_of_mem hxm with ⟨d, hd, hde⟩
    refine ⟨d, hd, ?_⟩
    rw [List.getD_eq_getElem _ _ hd, hde]
    simpa using hx
  · rw [if_neg hany]
    have hfl : forcedIdx < (rands.map (fun r => decide (r < CR))).length := by
      simpa using hf
    refine ⟨forcedIdx, by simpa using hfl, ?_⟩
    rw [List.getD_eq_getElem _ _ (by simpa using hfl)]
    simp [List.getElem_set]

/-- When some per-dimension draw passes `CR`, the crossover mask is exactly
`rands < CR` pointwise; the forced index plays no role. -/
theorem crossMask_of_any {CR : ℚ} {rands : List ℚ} {forcedIdx : ℕ}
    (h : ∃ r ∈ rands, r < CR) :
    crossMask CR rands forcedIdx = rands.map (fun r => decide (r < CR)) := by
  rw [crossMask, if_pos]
  rcases h with ⟨r, hrm, hr⟩
  exact List.any_eq_true.mpr ⟨true, List.mem_map.mpr ⟨r, hrm, by simpa using hr⟩, rfl⟩

theorem binomialCrossover_ne_target {CR : ℚ} {rands : List ℚ} {forcedIdx : ℕ}
    {mutant target : List ℚ} (hf : forcedIdx < rands.length)
    (hml : mutant.length = rands.length) (htl : target.length = rands.length)
    (hne : ∀ d < rands.length, mutant.getD d 0 ≠ target.getD d 0) :
    binomialCrossover CR rands forcedIdx mutant target ≠ target := by
  rcases @crossMask_exists_true CR rands forcedIdx hf with ⟨d, hd, hdt⟩
  have hdr : d < rands.length := by
    rw [length_crossMask] at hd; exact hd
  intro hcontra
  have hgd := npWhere_getD (crossMask CR rands forcedIdx) mutant target d hd
    (by omega) (by omega)
  rw [hdt, if_pos rfl] at hgd
  rw [binomialCrossover] at hcontra
  rw [hcontra] at hgd
  exact hne d hdr hgd.symm

end DE

namespace GA

/-- GA configuration: problem descriptor plus validated GA parameters.  GA
vectors live in ℝ because SBX and polynomial mutation take real 1/(η+1)-th
powers. -/
structure Config where
  objective : Objective
  bounds : List (ℝ × ℝ)
  fitness : List ℝ → ℝ
  populationSize : ℕ
  maxIterations : ℕ
  crossoverRate : ℝ
  mutationRate : ℝ
  tournamentSize : ℕ
  timeout : ℚ

/-- GA search state. -/
structure State where
  population : List (List ℝ)
  fitnessValues : List ℝ
  bestIndividual : List ℝ
  bestFitness : ℝ
  convergenceCurve : List ℝ

/-- Per-pair randomness: the two tournaments' index draws, the crossover
trigger, the per-gene SBX draws `(coin, u)` and the per-gene mutation draws
`(trigger, u)` for both children. -/
structure PairRand where
  t1 : List ℕ
  t2 : List ℕ
  uCross : ℝ
  sbxRands : List (ℝ × ℝ)
  mut1 : List (ℝ × ℝ)
  mut2 : List (ℝ × ℝ)

/-- k-way tournament selection: the strict-objective best among the sampled
indices (`np.argmin`/`argmax` over the tournament fitness, first winner). -/
noncomputable def tournamentSelect (cfg : Config) (pop : List (List ℝ))
    (fits : List ℝ) (idxs : List ℕ) : List ℝ :=
  (selectBest cfg.objective (idxs.map (fun j => (pop.getD j [], fits.getD j 0)))).1

/-- One gene of simulated binary crossover: crossed over with 50%
probability; identical parent genes (within `1e-14`) pass through; the
spread factor β uses η_c with the standard two-sided power law. -/
noncomputable def sbxGene (etaC coin u x1 x2 : ℝ) : ℝ × ℝ :=
  if coin ≤ 1 / 2 then
    if |x1 - x2| > 1 / 100000000000000 then
      let beta :=
        if u ≤ 1 / 2 then (2 * u) ^ ((1 : ℝ) / (etaC + 1))
        else (1 / (2 * (1 - u))) ^ ((1 : ℝ) / (etaC + 1))
      (1 / 2 * ((1 + beta) * x1 + (1 - beta) * x2),
       1 / 2 * ((1 - beta) * x1 + (1 + beta) * x2))
    else (x1, x2)
  else (x1, x2)

/-- `_simulated_binary_crossover` over whole parents. -/
noncomputable def sbxChildren (etaC : ℝ) :
    List (ℝ × ℝ) → List ℝ → List ℝ → List ℝ × List ℝ
  | r :: rs, x :: xs, y :: ys =>
      let g := sbxGene etaC r.1 r.2 x y
      let rest := sbxChildren etaC rs xs ys
      (g.1 :: rest.1, g.2 :: rest.2)
  | _, _, _ => ([], [])

/-- One gene of polynomial mutation (η_m, scaled by the gene's bound
range). -/
noncomputable def polyMutGene (etaM rate : ℝ) (lo hi trigger u x : ℝ) : ℝ :=
  if trigger < rate then
    let delta :=
      if u < 1 / 2 then (2 * u) ^ ((1 : ℝ) / (etaM + 1)) - 1
      else 1 - (2 * (1 - u)) ^ ((1 : ℝ) / (etaM + 1))
    x + delta * (hi - lo)
  else x

/-- `_polynomial_mutation` over a whole individual. -/
noncomputable def polyMut (etaM rate : ℝ) :
    List (ℝ × ℝ) → List (ℝ × ℝ) → List ℝ → List ℝ
  | b :: bs, r :: rs, x :: xs =>
      polyMutGene etaM rate b.1 b.2 r.1 r.2 x :: polyMut etaM rate bs rs xs
  | _, _, _ => []

/-- Produce one offspring pair: two tournament selections, SBX with
probability `crossover_rate` (otherwise parent copies), polynomial mutation
of both children, then bounds clipping. -/
noncomputable def makePair (cfg : Config) (pop : List (List ℝ)) (fits : List ℝ)
    (r : PairRand) : List ℝ × List ℝ :=
  let p1 := tournamentSelect cfg pop fits r.t1
  let p2 := tournamentSelect cfg pop fits r.t2
  let c := if r.uCross < cfg.crossoverRate then sbxChildren 20 r.sbxRands p1 p2
    else (p1, p2)
  (clipVec cfg.bounds (polyMut 20 cfg.mutationRate cfg.bounds r.mut1 c.1),
   clipVec cfg.bounds (polyMut 20 cfg.mutationRate cfg.bounds r.mut2 c.2))

/-- The offspring loop: pairs are appended until the new population reaches
`population_size`, i.e. `⌈size/2⌉` pairs are generated and the result is
truncated to exactly `population_size`. -/
noncomputable def newPopulation (cfg : Config) (pop : List (List ℝ)) (fits : List ℝ)
    (pr : ℕ → PairRand) : List (List ℝ) :=
  (((List.range ((cfg.populationSize + 1) / 2)).map (fun k =>
      let c := makePair cfg pop fits (pr k)
      [c.1, c.2])).join).take cfg.populationSize

/-- One GA generation: build the offspring population (pure generational
replacement), re-evaluate it, update the best-so-far only on strict
improvement, and record the best on the convergence curve. -/
noncomputable def step (cfg : Config) (st : State) (pr : ℕ → PairRand) : State :=
  let pop2 := newPopulation cfg st.population st.fitnessValues pr
  let best2 := selectBest cfg.objective (pop2.map (fun v => (v, cfg.fitness v)))
  if isBetter cfg.objective best2.2 st.bestFitness then
    { population := pop2
      fitnessValues := pop2.map cfg.fitness
      bestIndividual := best2.1
      bestFitness := best2.2
      convergenceCurve := st.convergenceCurve ++ [best2.2] }
  else
    { st with
      population := pop2
      fitnessValues := pop2.map cfg.fitness
      convergenceCurve := st.convergenceCurve ++ [st.bestFitness] }

/-- The best initial individual. -/
noncomputable def initBest (cfg : Config) (draws : List (List ℝ)) : List ℝ × ℝ :=
  selectBest cfg.objective (draws.map (fun d => (d, cfg.fitness d)))

/-- `initialize`: random population within bounds, evaluated; best recorded;
first convergence point appended. -/
noncomputable def initState (cfg : Config) (draws : List (List ℝ)) : State :=
  { population := draws
    fitnessValues := draws.map cfg.fitness
    bestIndividual := (initBest cfg draws).1
    bestFitness := (initBest cfg draws).2
    convergenceCurve := [(initBest cfg draws).2] }

/-- The `optimize` generation loop with the top-of-iteration timeout
check. -/
noncomputable def loop (cfg : Config) (clock : ℕ → ℚ) (pr : ℕ → ℕ → PairRand) :
    ℕ → ℕ → State → State
  | _, 0, st => st
  | i, n + 1, st =>
      if cfg.timeout < clock i then st
      else loop cfg clock pr (i + 1) n (step cfg st (pr i))

/-- `optimize`. -/
noncomputable def optimize (cfg : Config) (clock : ℕ → ℚ) (pr : ℕ → ℕ → PairRand)
    (st : State) : State :=
  loop cfg clock pr 0 cfg.maxIterations st

/-- Bounds invariant for GA: population rows and the best individual within
bounds, population at the validated size. -/
def Inv (cfg : Config) (st : State) : Prop :=
  (∀ v ∈ st.population, inBounds cfg.bounds v) ∧
  inBounds cfg.bounds st.bestIndividual ∧
  st.population.length = cfg.populationSize

/-- Trace invariant for GA. -/
def TraceInv (cfg : Config) (st : State) : Prop :=
  st.convergenceCurve.getLast? = some st.bestFitness ∧
  traceMonotone cfg.objective st.convergenceCurve

/-- Well-formed per-pair randomness: nonempty in-range tournaments, one SBX
draw and one mutation draw per gene. -/
def WFRand (cfg : Config) (r : PairRand) : Prop :=
  r.t1 ≠ [] ∧ (∀ j ∈ r.t1, j < cfg.populationSize) ∧
  r.t2 ≠ [] ∧ (∀ j ∈ r.t2, j < cfg.populationSize) ∧
  r.sbxRands.length = cfg.bounds.length ∧
  r.mut1.length = cfg.bounds.length ∧ r.mut2.length = cfg.bounds.length

theorem tournamentSelect_mem {cfg : Config} {pop : List (List ℝ)} {fits : List ℝ}
    {idxs : List ℕ} (hne : idxs ≠ []) (hin : ∀ j ∈ idxs, j < pop.length) :
    tournamentSelect cfg pop fits idxs ∈ pop := by
  have hmap : idxs.map (fun j => (pop.getD j [], fits.getD j 0)) ≠ [] := by
    simpa using hne
  have hmem := selectBest_mem_of_ne cfg.objective hmap
  rcases List.mem_map.mp hmem with ⟨j, hjm, hje⟩
  rw [tournamentSelect, ← hje]
  exact getRow_mem (hin j hjm)

theorem length_sbxChildren (etaC : ℝ) :
    ∀ (rs : List (ℝ × ℝ)) (xs ys : List ℝ),
      (sbxChildren etaC rs xs ys).1.length = min rs.length (min xs.length ys.length) ∧
      (sbxChildren etaC rs xs ys).2.length = min rs.length (min xs.length ys.length)
  | r :: rs, x :: xs, y :: ys => by
      have ih := length_sbxChildren etaC rs xs ys
      simp only [sbxChildren, List.length_cons, ih.1, ih.2]
      omega
  | [], _, _ => by simp [sbxChildren]
  | _ :: _, [], _ => by simp [sbxChildren]
  | _ :: _, _ :: _, [] => by simp [sbxChildren]

theorem length_polyMut (etaM rate : ℝ) :
    ∀ (bs : List (ℝ × ℝ)) (rs : List (ℝ × ℝ)) (xs : List ℝ),
      (polyMut etaM rate bs rs xs).length = min bs.length (min rs.length xs.length)
  | b :: bs, r :: rs, x :: xs => by
      simp only [polyMut, List.length_cons, length_polyMut etaM rate bs rs xs]
      omega
  | [], _, _ => by simp [polyMut]
  | _ :: _, [], _ => by simp [polyMut]
  | _ :: _, _ :: _, [] => by simp [polyMut]

theorem makePair_inBounds {cfg : Config} {pop : List (List ℝ)} {fits : List ℝ}
    {r : PairRand} (hv : validBounds cfg.bounds)
    (hpop : ∀ v ∈ pop, inBounds cfg.bounds v) (hpl : pop.length = cfg.populationSize)
    (hr : WFRand cfg r) :
    inBounds cfg.bounds (makePair cfg pop fits r).1 ∧
    inBounds cfg.bounds (makePair cfg pop fits r).2 := by
  obtain ⟨h1, h2', h3, h4', h5, h6, h7⟩ := hr
  have h2 : ∀ j ∈ r.t1, j < pop.length := by rw [hpl]; exact h2'
  have h4 : ∀ j ∈ r.t2, j < pop.length := by rw [hpl]; exact h4'
  have hp1 : (tournamentSelect cfg pop fits r.t1).length = cfg.bounds.length :=
    inBounds_length (hpop _ (tournamentSelect_mem h1 h2))
  have hp2 : (tournamentSelect cfg pop fits r.t2).length = cfg.bounds.length :=
    inBounds_length (hpop _ (tournamentSelect_mem h3 h4))
  constructor <;>
  · refine inBounds_clipVec_of_valid hv ?_
    rw [length_polyMut]
    rcases hcx : decide (r.uCross < cfg.crossoverRate) with hfv | htv
    · simp only [makePair, of_decide_eq_false hcx, if_neg, not_false_iff,
        Bool.false_eq_true]
      omega
    · have hcl := length_sbxChildren 20 r.sbxRands (tournamentSelect cfg pop fits r.t1)
        (tournamentSelect cfg pop fits r.t2)
      simp only [makePair, of_decide_eq_true hcx, if_pos, hcl.1, hcl.2]
      omega

theorem newPopulation_inBounds {cfg : Config} {pop : List (List ℝ)} {fits : List ℝ}
    {pr : ℕ → PairRand} (hv : validBounds cfg.bounds)
    (hpop : ∀ v ∈ pop, inBounds cfg.bounds v) (hpl : pop.length = cfg.populationSize)
    (hwf : ∀ k, WFRand cfg (pr k)) :
    ∀ v ∈ newPopulation cfg pop fits pr, inBounds cfg.bounds v := by
  intro v hvm
  rw [newPopulation] at hvm
  have hvj := List.mem_of_mem_take hvm
  rcases List.mem_join.mp hvj with ⟨l, hlm, hvl⟩
  rcases List.mem_map.mp hlm with ⟨k, _, hlk⟩
  have hmk := @makePair_inBounds cfg pop fits (pr k) hv hpop hpl (hwf k)
  rw [← hlk] at hvl
  simp only [List.mem_cons, List.mem_singleton, List.not_mem_nil, or_false] at hvl
  rcases hvl with h | h
  · rw [h]; exact hmk.1
  · rw [h]; exact hmk.2

theorem length_newPopulation (cfg : Config) (pop : List (List ℝ)) (fits : List ℝ)
    (pr : ℕ → PairRand) (hps : 0 < cfg.populationSize) :
    (newPopulation cfg pop fits pr).length = cfg.populationSize := by
  rw [newPopulation, List.length_take, List.length_join]
  have hmap : ((List.range ((cfg.populationSize + 1) / 2)).map (fun k =>
      let c := makePair cfg pop fits (pr k)
      [c.1, c.2])).map List.length
      = (List.range ((cfg.populationSize + 1) / 2)).map (fun _ => 2) := by
    rw [List.map_map]
    rfl
  have key : ∀ n : ℕ, ((List.range n).map (fun _ => (2 : ℕ))).sum = 2 * n := by
    intro n
    induction n with
    | zero => simp
    | succ m ih =>
        rw [List.range_succ, List.map_append, List.sum_append, ih]
        simp
        omega
  rw [hmap, key]
  omega

theorem newPopulation_ne_nil (cfg : Config) (pop : List (List ℝ)) (fits : List ℝ)
    (pr : ℕ → PairRand) (hps : 0 < cfg.populationSize) :
    newPopulation cfg pop fits pr ≠ [] := by
  have := length_newPopulation cfg pop fits pr hps
  intro h
  rw [h] at this
  simp at this
  omega

theorem ga_step_inv {cfg : Config} {st : State} {pr : ℕ → PairRand}
    (hv : validBounds cfg.bounds) (hps : 0 < cfg.populationSize)
    (hinv : Inv cfg st) (hwf : ∀ k, WFRand cfg (pr k)) :
    Inv cfg (step cfg st pr) ∧
      notWorse cfg.objective st.bestFitness (step cfg st pr).bestFitness := by
  obtain ⟨hpop, hbest, hpl⟩ := hinv
  have hnewb := @newPopulation_inBounds cfg st.population st.fitnessValues pr hv hpop hpl hwf
  have hnewl := length_newPopulation cfg st.population st.fitnessValues pr hps
  have hnn := newPopulation_ne_nil cfg st.population st.fitnessValues pr hps
  set pop2 := newPopulation cfg st.population st.fitnessValues pr with hpop2
  have hmapne : pop2.map (fun v => (v, cfg.fitness v)) ≠ [] := by simpa using hnn
  have hb2 := selectBest_mem_of_ne cfg.objective hmapne
  rcases List.mem_map.mp hb2 with ⟨d, hdm, hde⟩
  rw [step]
  by_cases hc : isBetter cfg.objective
      (selectBest cfg.objective (pop2.map (fun v => (v, cfg.fitness v)))).2
      st.bestFitness = true
  · simp only [← hpop2, hc, if_pos]
    refine ⟨⟨hnewb, ?_, hnewl⟩, notWorse_of_isBetter hc⟩
    rw [← hde]
    exact hnewb d hdm
  · simp only [← hpop2, hc, Bool.false_eq_true, if_neg, not_false_iff]
    exact ⟨⟨hnewb, hbest, hnewl⟩, notWorse_refl _ _⟩

theorem ga_step_trace {cfg : Config} {st : State} {pr : ℕ → PairRand}
    (hv : validBounds cfg.bounds) (hps : 0 < cfg.populationSize)
    (hinv : Inv cfg st) (hwf : ∀ k, WFRand cfg (pr k))
    (ht : TraceInv cfg st) : TraceInv cfg (step cfg st pr) := by
  obtain ⟨hlast, hchain⟩ := ht
  have hw := (ga_step_inv hv hps hinv hwf).2
  have hcurve : (step cfg st pr).convergenceCurve
      = st.convergenceCurve ++ [(step cfg st pr).bestFitness] := by
    rw [step]
    split <;> rfl
  constructor
  · rw [hcurve]
    simp
  · rw [hcurve, traceMonotone, List.chain'_append]
    refine ⟨hchain, List.chain'_singleton _, ?_⟩
    intro x hx y hy
    rw [hlast] at hx
    simp only [Option.mem_def, Option.some_inj] at hx
    simp only [List.head?_cons, Option.mem_def, Option.some_inj] at hy
    subst hx; subst hy
    exact hw

theorem ga_initState_inv {cfg : Config} {draws : List (List ℝ)} (hne : draws ≠ [])
    (hd : ∀ d ∈ draws, inBounds cfg.bounds d)
    (hlen : draws.length = cfg.populationSize) :
    Inv cfg (initState cfg draws) ∧ TraceInv cfg (initState cfg draws) := by
  have hps : draws.map (fun d => (d, cfg.fitness d)) ≠ [] := by simpa using hne
  have hmem := selectBest_mem_of_ne cfg.objective hps
  rcases List.mem_map.mp hmem with ⟨d, hdm, hde⟩
  refine ⟨⟨hd, ?_, hlen⟩, ?_, ?_⟩
  · show inBounds cfg.bounds (initBest cfg draws).1
    rw [initBest, ← hde]
    exact hd d hdm
  · simp [initState]
  · exact List.chain'_singleton _

theorem ga_loop_inv {cfg : Config} {clock : ℕ → ℚ} {pr : ℕ → ℕ → PairRand}
    (hv : validBounds cfg.bounds) (hps : 0 < cfg.populationSize)
    (hwf : ∀ it k, WFRand cfg (pr it k)) :
    ∀ (i n : ℕ) (st : State), Inv cfg st → TraceInv cfg st →
      Inv cfg (loop cfg clock pr i n st) ∧ TraceInv cfg (loop cfg clock pr i n st)
  | _, 0, st, h1, h2 => ⟨h1, h2⟩
  | i, n + 1, st, h1, h2 => by
      by_cases hc : cfg.timeout < clock i
      · simpa [loop, hc] using And.intro h1 h2
      · have hstep := ga_step_inv hv hps h1 (hwf i)
        have htr := ga_step_trace hv hps h1 (hwf i) h2
        simpa [loop, hc] using
          ga_loop_inv hv hps hwf (i + 1) n (step cfg st (pr i)) hstep.1 htr

end GA

namespace ACOR

/-- ACOR configuration: problem descriptor plus validated ACOR parameters. -/
structure Config where
  objective : Objective
  bounds : List (ℚ × ℚ)
  fitness : List ℚ → ℚ
  colonySize : ℕ
  maxIterations : ℕ
  archiveSize : ℕ
  q : ℚ
  xi : ℚ
  timeout : ℚ

/-- ACOR search state: the archive of (solution, fitness) pairs kept sorted
best-first, the rank-based selection weights, the best solution, and the
convergence trace. -/
structure State where
  archive : List (List ℚ × ℚ)
  weights : List ℝ
  bestSolution : List ℚ
  bestFitness : ℚ
  convergenceCurve : List ℚ

/-- Sort (solution, fitness) pairs best-first: ascending fitness for
minimize, descending for maximize (`np.argsort`, reversed for maximize). -/
def sortArchive (obj : Objective) (l : List (List ℚ × ℚ)) : List (List ℚ × ℚ) :=
  match obj with
  | .minimize => l.insertionSort (fun a b => a.2 ≤ b.2)
  | .maximize => l.insertionSort (fun a b => b.2 ≤ a.2)

theorem sortArchive_perm (obj : Objective) (l : List (List ℚ × ℚ)) :
    List.Perm (sortArchive obj l) l := by
  cases obj <;> exact List.perm_insertionSort _ _

theorem length_sortArchive (obj : Objective) (l : List (List ℚ × ℚ)) :
    (sortArchive obj l).length = l.length :=
  (sortArchive_perm obj l).length_eq

/-- The unnormalized rank-based Gaussian weight of the archive member at
0-based index `i` (rank `i + 1`):
`(1/(q·k·√(2π))) · exp(−(rank−1)²/(2·(q·k)²))`. -/
noncomputable def gaussWeight (q : ℚ) (k : ℕ) (i : ℕ) : ℝ :=
  let qk : ℝ := ((q * k : ℚ) : ℝ)
  let rank : ℝ := i + 1
  (1 / (qk * Real.sqrt (2 * Real.pi))) * Real.exp (-((rank - 1) ^ 2) / (2 * qk ^ 2))

/-- `_update_weights`: compute the unnormalized Gaussian weights for ranks
`1..k`, then normalize them to sum to 1 (falling back to uniform weights if
the sum is not positive). -/
noncomputable def updateWeights (q : ℚ) (k : ℕ) : List ℝ :=
  let raw := (List.range k).map (gaussWeight q k)
  if 0 < raw.sum then raw.map (fun w => w / raw.sum)
  else List.replicate k (1 / (k : ℝ))

/-- Per-ant randomness: the weighted archive choice (as the chosen index)
and the standard-normal deviates, one per dimension. -/
structure AntRand where
  selIdx : ℕ
  noise : List ℚ

/-- The per-dimension Gaussian spread `σ_d`: mean absolute deviation of the
archive column from the selected solution, scaled by `xi` (with the 10%
bound-range fallback for a single-member archive). -/
def sigmaAt (cfg : Config) (archive : List (List ℚ × ℚ)) (sel : List ℚ) (d : ℕ) : ℚ :=
  if 1 < cfg.archiveSize then
    cfg.xi * ((archive.map (fun a => |a.1.getD d 0 - sel.getD d 0|)).sum)
      / ((cfg.archiveSize : ℚ) - 1)
  else
    (1 / 10) * ((cfg.bounds.getD d (0, 0)).2 - (cfg.bounds.getD d (0, 0)).1)

/-- `_construct_solution`: sample a new vector around the selected archive
member, dimension by dimension, with spread `σ_d` (the standard-normal
deviate `z_d` gives `N(0, σ_d) = z_d · σ_d`). -/
def constructSolution (cfg : Config) (archive : List (List ℚ × ℚ)) (r : AntRand) :
    List ℚ :=
  let sel := getRow (archive.map Prod.fst) r.selIdx
  (List.range cfg.bounds.length).map (fun d =>
    sel.getD d 0 + (r.noise.getD d 0) * sigmaAt cfg archive sel d)

/-- One iteration of the ACOR `optimize` loop: `colony_size` ants construct
bounded candidates, the candidates are evaluated and merged with the
archive, the merged pool is re-sorted and truncated to `archive_size`
(elitist replacement), the weights are recomputed, the best solution is
updated on strict improvement, and the best fitness is recorded. -/
noncomputable def step (cfg : Config) (st : State) (r : ℕ → AntRand) : State :=
  let newSols := (List.range cfg.colonySize).map (fun ant =>
    let s := clipVec cfg.bounds (constructSolution cfg st.archive (r ant))
    (s, cfg.fitness s))
  let sorted := (sortArchive cfg.objective (st.archive ++ newSols)).take cfg.archiveSize
  if isBetter cfg.objective sorted.headI.2 st.bestFitness then
    { archive := sorted
      weights := updateWeights cfg.q cfg.archiveSize
      bestSolution := sorted.headI.1
      bestFitness := sorted.headI.2
      convergenceCurve := st.convergenceCurve ++ [sorted.headI.2] }
  else
    { st with
      archive := sorted
      weights := updateWeights cfg.q cfg.archiveSize
      convergenceCurve := st.convergenceCurve ++ [st.bestFitness] }

/-- `initialize`: random archive within bounds, evaluated, sorted
best-first; initial weights computed; best = head of the sorted archive;
first convergence point recorded. -/
noncomputable def initState (cfg : Config) (draws : List (List ℚ)) : State :=
  let sorted := sortArchive cfg.objective (draws.map (fun d => (d, cfg.fitness d)))
  { archive := sorted
    weights := updateWeights cfg.q cfg.archiveSize
    bestSolution := sorted.headI.1
    bestFitness := sorted.headI.2
    convergenceCurve := [sorted.headI.2] }

/-- The `optimize` loop with the top-of-iteration timeout check. -/
noncomputable def loop (cfg : Config) (clock : ℕ → ℚ) (r : ℕ → ℕ → AntRand) :
    ℕ → ℕ → State → State
  | _, 0, st => st
  | i, n + 1, st =>
      if cfg.timeout < clock i then st
      else loop cfg clock r (i + 1) n (step cfg st (r i))

/-- `optimize`. -/
noncomputable def optimize (cfg : Config) (clock : ℕ → ℚ) (r : ℕ → ℕ → AntRand)
    (st : State) : State :=
  loop cfg clock r 0 cfg.maxIterations st

/-- Bounds invariant for ACOR: all archive members and the best solution in
bounds; archive at the validated size. -/
def Inv (cfg : Config) (st : State) : Prop :=
  (∀ a ∈ st.archive, inBounds cfg.bounds a.1) ∧
  inBounds cfg.bounds st.bestSolution ∧
  st.archive.length = cfg.archiveSize

/-- Trace invariant for ACOR. -/
def TraceInv (cfg : Config) (st : State) : Prop :=
  st.convergenceCurve.getLast? = some st.bestFitness ∧
  traceMonotone cfg.objective st.convergenceCurve

theorem headI_mem {α : Type} [Inhabited α] {l : List α} (h : l ≠ []) : l.headI ∈ l := by
  cases l with
  | nil => exact absurd rfl h
  | cons x xs => simp

theorem constructSolution_length (cfg : Config) (archive : List (List ℚ × ℚ))
    (r : AntRand) : (constructSolution cfg archive r).length = cfg.bounds.length := by
  simp [constructSolution]

theorem aco_step_inv {cfg : Config} {st : State} {r : ℕ → AntRand}
    (hv : validBounds cfg.bounds) (hks : 1 ≤ cfg.archiveSize) (hinv : Inv cfg st) :
    Inv cfg (step cfg st r) ∧
      notWorse cfg.objective st.bestFitness (step cfg st r).bestFitness := by
  obtain ⟨harch, hbest, hlen⟩ := hinv
  set newSols := (List.range cfg.colonySize).map (fun ant =>
    let s := clipVec cfg.bounds (constructSolution cfg st.archive (r ant))
    (s, cfg.fitness s)) with hns
  have hnewb : ∀ a ∈ newSols, inBounds cfg.bounds a.1 := by
    intro a ham
    rw [hns] at ham
    rcases List.mem_map.mp ham with ⟨ant, _, hae⟩
    rw [← hae]
    exact inBounds_clipVec_of_valid hv (constructSolution_length cfg st.archive (r ant))
  have hcomb : ∀ a ∈ st.archive ++ newSols, inBounds cfg.bounds a.1 := by
    intro a ham
    rcases List.mem_append.mp ham with h | h
    · exact harch a h
    · exact hnewb a h
  set sorted := (sortArchive cfg.objective (st.archive ++ newSols)).take cfg.archiveSize
    with hsor
  have hsorted : ∀ a ∈ sorted, inBounds cfg.bounds a.1 := by
    intro a ham
    rw [hsor] at ham
    exact hcomb a ((sortArchive_perm cfg.objective _).mem_iff.mp (List.mem_of_mem_take ham))
  have hslen : sorted.length = cfg.archiveSize := by
    rw [hsor, List.length_take, length_sortArchive, List.length_append, hlen]
    omega
  have hsne : sorted ≠ [] := by
    intro h
    rw [h] at hslen
    simp at hslen
    omega
  have hhead : inBounds cfg.bounds sorted.headI.1 := hsorted _ (headI_mem hsne)
  rw [step]
  by_cases hc : isBetter cfg.objective sorted.headI.2 st.bestFitness = true
  · simp only [← hns, ← hsor, hc, if_pos]
    exact ⟨⟨hsorted, hhead, hslen⟩, notWorse_of_isBetter hc⟩
  · simp only [← hns, ← hsor, hc, Bool.false_eq_true, if_neg, not_false_iff]
    exact ⟨⟨hsorted, hbest, hslen⟩, notWorse_refl _ _⟩

theorem step_curve {cfg : Config} (st : State) (r : ℕ → AntRand) :
    (step cfg st r).convergenceCurve
      = st.convergenceCurve ++ [(step cfg st r).bestFitness] := by
  rw [step]
  split <;> rfl

theorem aco_step_trace {cfg : Config} {st : State} {r : ℕ → AntRand}
    (hv : validBounds cfg.bounds) (hks : 1 ≤ cfg.archiveSize) (hinv : Inv cfg st)
    (ht : TraceInv cfg st) : TraceInv cfg (step cfg st r) := by
  obtain ⟨hlast, hchain⟩ := ht
  have hw := (aco_step_inv (r := r) hv hks hinv).2
  constructor
  · rw [step_curve]
    simp
  · rw [step_curve, traceMonotone, List.chain'_append]
    refine ⟨hchain, List.chain'_singleton _, ?_⟩
    intro x hx y hy
    rw [hlast] at hx
    simp only [Option.mem_def, Option.some_inj] at hx
    simp only [List.head?_cons, Option.mem_def, Option.some_inj] at hy
    subst hx; subst hy
    exact hw

theorem aco_initState_inv {cfg : Config} {draws : List (List ℚ)}
    (hd : ∀ d ∈ draws, inBounds cfg.bounds d)
    (hlen : draws.length = cfg.archiveSize) (hks : 1 ≤ cfg.archiveSize) :
    Inv cfg (initState cfg draws) ∧ TraceInv cfg (initState cfg draws) := by
  set sorted := sortArchive cfg.objective (draws.map (fun d => (d, cfg.fitness d)))
    with hsor
  have hsortb : ∀ a ∈ sorted, inBounds cfg.bounds a.1 := by
    intro a ham
    rw [hsor] at ham
    have := (sortArchive_perm cfg.objective _).mem_iff.mp ham
    rcases List.mem_map.mp this with ⟨d, hdm, hde⟩
    rw [← hde]
    exact hd d hdm
  have hslen : sorted.length = cfg.archiveSize := by
    rw [hsor, length_sortArchive, List.length_map, hlen]
  have hsne : sorted ≠ [] := by
    intro h
    rw [h] at hslen
    simp at hslen
    omega
  refine ⟨⟨hsortb, ?_, hslen⟩, ?_, ?_⟩
  · exact hsortb _ (headI_mem hsne)
  · simp [initState, ← hsor]
  · exact List.chain'_singleton _

theorem aco_loop_inv {cfg : Config} {clock : ℕ → ℚ} {r : ℕ → ℕ → AntRand}
    (hv : validBounds cfg.bounds) (hks : 1 ≤ cfg.archiveSize) :
    ∀ (i n : ℕ) (st : State), Inv cfg st → TraceInv cfg st →
      Inv cfg (loop cfg clock r i n st) ∧ TraceInv cfg (loop cfg clock r i n st)
  | _, 0, st, h1, h2 => ⟨h1, h2⟩
  | i, n + 1, st, h1, h2 => by
      by_cases hc : cfg.timeout < clock i
      · simpa [loop, hc] using And.intro h1 h2
      · have hstep := aco_step_inv (r := r i) hv hks h1
        have htr := aco_step_trace (r := r i) hv hks h1 h2
        simpa [loop, hc] using
          aco_loop_inv hv hks (i + 1) n (step cfg st (r i)) hstep.1 htr

/-! Lemmas about the archive-selection weights (claim C9). -/

theorem gaussWeight_pos {q : ℚ} {k : ℕ} (hq : 0 < q) (hk : 1 ≤ k) (i : ℕ) :
    0 < gaussWeight q k i := by
  have hqk : (0 : ℝ) < ((q * k : ℚ) : ℝ) := by
    have : (0 : ℚ) < q * k := by
      have hkq : (0 : ℚ) < (k : ℚ) := by
        exact_mod_cast Nat.lt_of_lt_of_le Nat.zero_lt_one hk
      exact mul_pos hq hkq
    exact_mod_cast this
  have hsq : (0 : ℝ) < Real.sqrt (2 * Real.pi) :=
    Real.sqrt_pos.mpr (by positivity)
  rw [gaussWeight]
  have h1 : (0 : ℝ) < 1 / (((q * k : ℚ) : ℝ) * Real.sqrt (2 * Real.pi)) :=
    div_pos one_pos (mul_pos hqk hsq)
  exact mul_pos h1 (Real.exp_pos _)

theorem sum_map_div (l : List ℝ) (c : ℝ) :
    (l.map (fun w => w / c)).sum = l.sum / c := by
  induction l with
  | nil => simp
  | cons x xs ih => simp [ih, add_div]

theorem rawSum_pos {q : ℚ} {k : ℕ} (hq : 0 < q) (hk : 1 ≤ k) :
    0 < ((List.range k).map (gaussWeight q k)).sum := by
  apply List.sum_pos
  · intro a ham
    rcases List.mem_map.mp ham with ⟨i, _, hie⟩
    rw [← hie]
    exact gaussWeight_pos hq hk i
  · intro h
    have := congrArg List.length h
    simp at this
    omega

theorem updateWeights_eq {q : ℚ} {k : ℕ} (hq : 0 < q) (hk : 1 ≤ k) :
    updateWeights q k = ((List.range k).map (gaussWeight q k)).map
      (fun w => w / ((List.range k).map (gaussWeight q k)).sum) := by
  rw [updateWeights]
  exact if_pos (rawSum_pos hq hk)

theorem updateWeights_sum {q : ℚ} {k : ℕ} (hq : 0 < q) (hk : 1 ≤ k) :
    (updateWeights q k).sum = 1 := by
  rw [updateWeights_eq hq hk, sum_map_div]
  exact div_self (ne_of_gt (rawSum_pos hq hk))

theorem updateWeights_length {q : ℚ} {k : ℕ} (hq : 0 < q) (hk : 1 ≤ k) :
    (updateWeights q k).length = k := by
  rw [updateWeights_eq hq hk]
  simp

theorem updateWeights_getD {q : ℚ} {k : ℕ} (hq : 0 < q) (hk : 1 ≤ k) {i : ℕ}
    (hi : i < k) :
    (updateWeights q k).getD i 0
      = gaussWeight q k i / ((List.range k).map (gaussWeight q k)).sum := by
  rw [updateWeights_eq hq hk]
  have hil : i < (((List.range k).map (gaussWeight q k)).map
      (fun w => w / ((List.range k).map (gaussWeight q k)).sum)).length := by
    simpa using hi
  rw [List.getD_eq_getElem _ _ hil]
  simp

/-- The proportionality form of the weight formula: the normalized weight
times the normalizing constant recovers the Gaussian numerator. -/
theorem updateWeights_propto {q : ℚ} {k : ℕ} (hq : 0 < q) (hk : 1 ≤ k) {i : ℕ}
    (hi : i < k) :
    (updateWeights q k).getD i 0 * ((List.range k).map (gaussWeight q k)).sum
      = gaussWeight q k i := by
  rw [updateWeights_getD hq hk hi]
  exact div_mul_cancel₀ _ (ne_of_gt (rawSum_pos hq hk))

/-- Every iteration recomputes the weights from the freshly sorted
archive's ranks. -/
theorem step_weights {cfg : Config} (st : State) (r : ℕ → AntRand) :
    (step cfg st r).weights = updateWeights cfg.q cfg.archiveSize := by
  rw [step]
  split <;> rfl

end ACOR

namespace SA

/-- SA configuration: problem descriptor plus SA parameters. -/
structure Config where
  objective : Objective
  bounds : List (ℚ × ℚ)
  fitness : List ℚ → ℚ
  initialTemp : ℚ
  finalTemp : ℚ
  coolingRate : ℚ
  maxIterations : ℕ
  neighborStd : ℚ
  coolingSchedule : CoolingSchedule
  timeout : ℚ

/-- SA search state: single trajectory plus best-so-far, temperature (ℝ,
because the logarithmic schedule divides by a real logarithm), histories
and acceptance counters. -/
structure State where
  currentSolution : List ℚ
  currentFitness : ℚ
  bestSolution : List ℚ
  bestFitness : ℚ
  temperature : ℝ
  temperatureHistory : List ℝ
  convergenceCurve : List ℚ
  evaluationsCount : ℕ
  acceptanceCount : ℕ
  totalWorseAttempts : ℕ

/-- `_generate_neighbor`: perturb every dimension independently by
`N(0, neighbor_std · range_d) = neighbor_std · range_d · z_d` and clip the
coordinate to its bounds. -/
def neighborVec (std : ℚ) : List (ℚ × ℚ) → List ℚ → List ℚ → List ℚ
  | b :: bs, x :: xs, z :: zs =>
      clip (x + std * (b.2 - b.1) * z) b.1 b.2 :: neighborVec std bs xs zs
  | _, _, _ => []

/-- The energy difference ΔE, oriented to be positive for a worse move. -/
def deltaE (obj : Objective) (newFitness currentFitness : ℚ) : ℚ :=
  match obj with
  | .minimize => newFitness - currentFitness
  | .maximize => currentFitness - newFitness

/-- `_accept_solution` (Metropolis criterion): always accept a strictly
better candidate; a candidate with `ΔE ≤ 0` (equal fitness) is accepted;
otherwise accept exactly when the uniform draw is below `exp(−ΔE/T)`.  In
this exact-real model the `exp` of a negative finite argument is a genuine
probability, so the source's NaN/Inf/overflow rejection guard has nothing
to catch. -/
def accepts (obj : Objective) (newFitness currentFitness : ℚ) (T : ℝ)
    (rand : ℚ) : Prop :=
  if isBetter obj newFitness currentFitness then True
  else if deltaE obj newFitness currentFitness ≤ 0 then True
  else ((rand : ℝ) < Real.exp (-((deltaE obj newFitness currentFitness : ℚ) : ℝ) / T))

open Classical in
/-- One proposal step of the inner loop (see the doc above `accepts`):
generate a bounded neighbor, evaluate it, apply the Metropolis criterion to
the current solution, and update the best-so-far whenever the neighbor
beats it, independently of acceptance. -/
noncomputable def proposalStep (cfg : Config) (st : State) (z : List ℚ)
    (rand : ℚ) : State :=
  let neighbor := neighborVec cfg.neighborStd cfg.bounds st.currentSolution z
  let nf := cfg.fitness neighbor
  let worse := isBetter cfg.objective nf st.currentFitness = false
  let acc := accepts cfg.objective nf st.currentFitness st.temperature rand
  { currentSolution := if acc then neighbor else st.currentSolution
    currentFitness := if acc then nf else st.currentFitness
    bestSolution :=
      if isBetter cfg.objective nf st.bestFitness then neighbor else st.bestSolution
    bestFitness :=
      if isBetter cfg.objective nf st.bestFitness then nf else st.bestFitness
    temperature := st.temperature
    temperatureHistory := st.temperatureHistory
    convergenceCurve := st.convergenceCurve
    evaluationsCount := st.evaluationsCount + 1
    acceptanceCount := st.acceptanceCount + (if acc ∧ worse then 1 else 0)
    totalWorseAttempts := st.totalWorseAttempts + (if worse then 1 else 0) }

/-- The inner loop: up to `max_iterations` proposals per temperature level,
incrementing the cumulative proposal counter and breaking on timeout (the
clock is read once per proposal, indexed by the counter).  Returns the
state and the updated counter. -/
noncomputable def innerLoop (cfg : Config) (clock : ℕ → ℚ)
    (zr : ℕ → List ℚ × ℚ) : ℕ → ℕ → State → State × ℕ
  | counter, 0, st => (st, counter)
  | counter, n + 1, st =>
      if cfg.timeout < clock (counter + 1) then (st, counter + 1)
      else innerLoop cfg clock zr (counter + 1) n
        (proposalStep cfg st (zr (counter + 1)).1 (zr (counter + 1)).2)

/-- `_cool_temperature`: geometric `T·rate`; linear
`max(T − (T₀−T_f)/100, T_f)`; practical logarithmic
`max(T₀ / (1 + 2.5·k·log(1+k)), T_f)` with `k` the cumulative proposal
count. -/
noncomputable def coolTemperature (cfg : Config) (T : ℝ) (iter : ℕ) : ℝ :=
  match cfg.coolingSchedule with
  | .geometric => T * (cfg.coolingRate : ℝ)
  | .linear =>
      max (T - ((cfg.initialTemp : ℝ) - (cfg.finalTemp : ℝ)) / 100) (cfg.finalTemp : ℝ)
  | .logarithmic =>
      max ((cfg.initialTemp : ℝ)
            / (1 + (5 / 2) * (iter : ℝ) * Real.log (1 + (iter : ℝ))))
        (cfg.finalTemp : ℝ)

open Classical in
/-- The outer temperature loop (`while temperature > final_temp`), with the
per-level timeout check, the inner proposal loop, cooling, the
snap-to-final-temp early stop when the temperature would drop to ≤ 0, and
the per-level temperature-history/convergence recording.  The loop is
driven by a fuel argument; every theorem below holds for every fuel. -/
noncomputable def outerLoop (cfg : Config) (clockOuter clockInner : ℕ → ℚ)
    (zr : ℕ → List ℚ × ℚ) : ℕ → ℕ → ℕ → State → State
  | 0, _, _, st => st
  | fuel + 1, lvl, counter, st =>
      if st.temperature ≤ (cfg.finalTemp : ℝ) then st
      else if cfg.timeout < clockOuter lvl then st
      else
        let inner := innerLoop cfg clockInner zr counter cfg.maxIterations st
        let T2 := coolTemperature cfg inner.1.temperature inner.2
        if T2 ≤ 0 then { inner.1 with temperature := (cfg.finalTemp : ℝ) }
        else
          outerLoop cfg clockOuter clockInner zr fuel (lvl + 1) inner.2
            { inner.1 with
              temperature := T2
              temperatureHistory := inner.1.temperatureHistory ++ [T2]
              convergenceCurve := inner.1.convergenceCurve ++ [inner.1.bestFitness] }

/-- `initialize`: validates the SA parameters first (returning `none`, i.e.
raising `ValueError`, before the initial solution is drawn or evaluated),
then sets the temperature, draws the initial solution, evaluates it once,
records it as best and as the first convergence point, and resets the
counters. -/
def initState (cfg : Config) (draw : List ℚ) : State :=
  { currentSolution := draw
    currentFitness := cfg.fitness draw
    bestSolution := draw
    bestFitness := cfg.fitness draw
    temperature := (cfg.initialTemp : ℝ)
    temperatureHistory := [(cfg.initialTemp : ℝ)]
    convergenceCurve := [cfg.fitness draw]
    evaluationsCount := 1
    acceptanceCount := 0
    totalWorseAttempts := 0 }

def init (cfg : Config) (draw : List ℚ) : Option State :=
  if saValidateParams cfg.initialTemp cfg.finalTemp cfg.coolingRate
      (cfg.maxIterations : ℤ) cfg.neighborStd cfg.coolingSchedule then
    some (initState cfg draw)
  else none

/-- Bounds invariant for SA: the current and best solutions lie within
bounds. -/
def Inv (cfg : Config) (st : State) : Prop :=
  inBounds cfg.bounds st.currentSolution ∧ inBounds cfg.bounds st.bestSolution

/-- Trace invariant for SA: the recorded trace is monotone and the current
best-so-far is not worse than the last recorded point (SA records once per
temperature level, so mid-level the best may already be ahead of the
trace). -/
def TraceInv (cfg : Config) (st : State) : Prop :=
  traceMonotone cfg.objective st.convergenceCurve ∧
  ∀ b ∈ st.convergenceCurve.getLast?, notWorse cfg.objective b st.bestFitness

theorem neighborVec_inBounds (std : ℚ) :
    ∀ (bs : List (ℚ × ℚ)) (xs zs : List ℚ), validBounds bs →
      xs.length = bs.length → zs.length = bs.length →
      inBounds bs (neighborVec std bs xs zs) := by
  intro bs
  induction bs with
  | nil =>
      intro xs zs _ hx hz
      have h : neighborVec std [] xs zs = [] := by cases xs <;> cases zs <;> rfl
      rw [h]
      trivial
  | cons b bs ih =>
      intro xs zs hv hx hz
      cases xs with
      | nil => simp at hx
      | cons x xs =>
          cases zs with
          | nil => simp at hz
          | cons z zs =>
              refine ⟨clip_mem _ (le_of_lt (hv b (by simp))), ?_⟩
              exact ih xs zs (fun p hp => hv p (by simp [hp])) (by simpa using hx)
                (by simpa using hz)

/-! Field equations of `proposalStep` (definitional). -/

open Classical in
theorem proposalStep_currentSolution (cfg : Config) (st : State) (z : List ℚ)
    (rand : ℚ) :
    (proposalStep cfg st z rand).currentSolution =
      if accepts cfg.objective
          (cfg.fitness (neighborVec cfg.neighborStd cfg.bounds st.currentSolution z))
          st.currentFitness st.temperature rand
      then neighborVec cfg.neighborStd cfg.bounds st.currentSolution z
      else st.currentSolution := rfl

open Classical in
theorem proposalStep_currentFitness (cfg : Config) (st : State) (z : List ℚ)
    (rand : ℚ) :
    (proposalStep cfg st z rand).currentFitness =
      if accepts cfg.objective
          (cfg.fitness (neighborVec cfg.neighborStd cfg.bounds st.currentSolution z))
          st.currentFitness st.temperature rand
      then cfg.fitness (neighborVec cfg.neighborStd cfg.bounds st.currentSolution z)
      else st.currentFitness := rfl

theorem proposalStep_bestSolution (cfg : Config) (st : State) (z : List ℚ)
    (rand : ℚ) :
    (proposalStep cfg st z rand).bestSolution =
      if isBetter cfg.objective
          (cfg.fitness (neighborVec cfg.neighborStd cfg.bounds st.currentSolution z))
          st.bestFitness
      then neighborVec cfg.neighborStd cfg.bounds st.currentSolution z
      else st.bestSolution := rfl

theorem proposalStep_bestFitness (cfg : Config) (st : State) (z : List ℚ)
    (rand : ℚ) :
    (proposalStep cfg st z rand).bestFitness =
      if isBetter cfg.objective
          (cfg.fitness (neighborVec cfg.neighborStd cfg.bounds st.currentSolution z))
          st.bestFitness
      then cfg.fitness (neighborVec cfg.neighborStd cfg.bounds st.currentSolution z)
      else st.bestFitness := rfl

theorem proposalStep_inv {cfg : Config} {st : State} {z : List ℚ} {rand : ℚ}
    (hv : validBounds cfg.bounds) (hinv : Inv cfg st)
    (hz : z.length = cfg.bounds.length) :
    Inv cfg (proposalStep cfg st z rand) ∧
      notWorse cfg.objective st.bestFitness (proposalStep cfg st z rand).bestFitness ∧
      (proposalStep cfg st z rand).convergenceCurve = st.convergenceCurve ∧
      (proposalStep cfg st z rand).temperature = st.temperature := by
  have hnb : inBounds cfg.bounds
      (neighborVec cfg.neighborStd cfg.bounds st.currentSolution z) :=
    neighborVec_inBounds cfg.neighborStd cfg.bounds st.currentSolution z hv
      (inBounds_length hinv.1) hz
  refine ⟨⟨?_, ?_⟩, ?_, rfl, rfl⟩
  · rw [proposalStep_currentSolution]
    split
    · exact hnb
    · exact hinv.1
  · rw [proposalStep_bestSolution]
    split
    · exact hnb
    · exact hinv.2
  · rw [proposalStep_bestFitness]
    split
    · next h => exact notWorse_of_isBetter h
    · exact notWorse_refl _ _

theorem sa_innerLoop_inv {cfg : Config} {clock : ℕ → ℚ} {zr : ℕ → List ℚ × ℚ}
    (hv : validBounds cfg.bounds) (hwz : ∀ k, (zr k).1.length = cfg.bounds.length) :
    ∀ (counter n : ℕ) (st : State), Inv cfg st →
      Inv cfg (innerLoop cfg clock zr counter n st).1 ∧
      notWorse cfg.objective st.bestFitness
        (innerLoop cfg clock zr counter n st).1.bestFitness ∧
      (innerLoop cfg clock zr counter n st).1.convergenceCurve = st.convergenceCurve ∧
      (innerLoop cfg clock zr counter n st).1.temperature = st.temperature
  | _, 0, st, hinv => ⟨hinv, notWorse_refl _ _, rfl, rfl⟩
  | counter, n + 1, st, hinv => by
      by_cases hc : cfg.timeout < clock (counter + 1)
      · simp only [innerLoop, hc, if_pos]
        exact ⟨hinv, notWorse_refl _ _, by trivial, by trivial⟩
      · have hp := @proposalStep_inv cfg st (zr (counter + 1)).1
          (zr (counter + 1)).2 hv hinv (hwz (counter + 1))
        have ih := @sa_innerLoop_inv cfg clock zr hv hwz (counter + 1) n _ hp.1
        simp only [innerLoop, hc, if_neg, not_false_iff]
        exact ⟨ih.1, notWorse_trans hp.2.1 ih.2.1, by rw [ih.2.2.1, hp.2.2.1],
          by rw [ih.2.2.2, hp.2.2.2]⟩

theorem outerLoop_inv {cfg : Config} {clockOuter clockInner : ℕ → ℚ}
    {zr : ℕ → List ℚ × ℚ}
    (hv : validBounds cfg.bounds) (hwz : ∀ k, (zr k).1.length = cfg.bounds.length) :
    ∀ (fuel lvl counter : ℕ) (st : State), Inv cfg st → TraceInv cfg st →
      Inv cfg (outerLoop cfg clockOuter clockInner zr fuel lvl counter st) ∧
      TraceInv cfg (outerLoop cfg clockOuter clockInner zr fuel lvl counter st)
  | 0, _, _, st, h1, h2 => ⟨h1, h2⟩
  | fuel + 1, lvl, counter, st, h1, h2 => by
      by_cases hw : st.temperature ≤ (cfg.finalTemp : ℝ)
      · simp only [outerLoop, hw, if_pos]
        exact ⟨h1, h2⟩
      · by_cases hc : cfg.timeout < clockOuter lvl
        · simp only [outerLoop, hw, hc, if_neg, not_false_iff, if_pos]
          exact ⟨h1, h2⟩
        · have hil := @sa_innerLoop_inv cfg clockInner zr hv hwz counter
            cfg.maxIterations st h1
          set inner := innerLoop cfg clockInner zr counter cfg.maxIterations st
            with hin
          by_cases hz0 : coolTemperature cfg inner.1.temperature inner.2 ≤ 0
          · simp only [outerLoop, hw, hc, hz0, if_neg, not_false_iff, if_pos]
            refine ⟨⟨hil.1.1, hil.1.2⟩, ?_, ?_⟩
            · show traceMonotone cfg.objective inner.1.convergenceCurve
              rw [hil.2.2.1]
              exact h2.1
            · show ∀ b ∈ inner.1.convergenceCurve.getLast?,
                notWorse cfg.objective b inner.1.bestFitness
              intro b hb
              rw [hil.2.2.1] at hb
              exact notWorse_trans (h2.2 b hb) hil.2.1
          · set st2 : State :=
              { inner.1 with
                temperature := coolTemperature cfg inner.1.temperature inner.2
                temperatureHistory := inner.1.temperatureHistory
                  ++ [coolTemperature cfg inner.1.temperature inner.2]
                convergenceCurve := inner.1.convergenceCurve
                  ++ [inner.1.bestFitness] } with hst2
            have hnewtr : TraceInv cfg st2 := by
              rw [hst2]
              constructor
              · show List.Chain' _ (inner.1.convergenceCurve ++ [inner.1.bestFitness])
                rw [hil.2.2.1, List.chain'_append]
                refine ⟨h2.1, List.chain'_singleton _, ?_⟩
                intro x hx y hy
                simp only [List.head?_cons, Option.mem_def, Option.some_inj] at hy
                subst hy
                exact notWorse_trans (h2.2 x hx) hil.2.1
              · intro b hb
                simp only [List.getLast?_concat, Option.mem_def, Option.some_inj] at hb
                subst hb
                exact notWorse_refl _ _
            have hinv2 : Inv cfg st2 := by
              rw [hst2]
              exact ⟨hil.1.1, hil.1.2⟩
            have ih := @outerLoop_inv cfg clockOuter clockInner zr hv hwz fuel
              (lvl + 1) inner.2 st2 hinv2 hnewtr
            simp only [outerLoop, hw, hc, hz0, if_neg, not_false_iff]
            exact ih

theorem sa_initState_inv {cfg : Config} {draw : List ℚ}
    (hd : inBounds cfg.bounds draw) :
    Inv cfg (initState cfg draw) ∧ TraceInv cfg (initState cfg draw) := by
  refine ⟨⟨hd, hd⟩, List.chain'_singleton _, ?_⟩
  intro b hb
  simp only [initState, List.getLast?_singleton, Option.mem_def, Option.some_inj] at hb
  rw [← hb]
  exact notWorse_refl _ _

end SA

/-! ## Claim theorems -/

/-- C3 (amended): of the five engines, PSO, GA, ACOR and SA reject
`max_iterations > 100` at parameter validation, and only SA's problem
schema rejects `dimensions > 50`; DE's validators enforce neither ceiling
(its parameter validation accepts any `max_iterations ≥ 1`, and the common
problem-schema check used by PSO/GA/DE/ACOR accepts any positive dimension
count).  Validators never see the fitness function, so every rejection
happens before any fitness evaluation. -/
theorem iteration_and_dimension_ceilings :
    (∀ (s m : ℤ) (w c1 c2 : ℚ), 100 < m → psoValidateParams s m w c1 c2 = false) ∧
    (∀ (p m : ℤ) (cr mr : ℚ) (t : ℤ), 100 < m → gaValidateParams p m cr mr t = false) ∧
    (∀ (c m a : ℤ) (q xi : ℚ), 100 < m → acoValidateParams c m a q xi = false) ∧
    (∀ (it ft rate : ℚ) (m : ℤ) (std : ℚ) (sch : CoolingSchedule), 100 < m →
      saValidateParams it ft rate m std sch = false) ∧
    (∀ (d : ℤ) (bounds : List (ℚ × ℚ)), 50 < d → saProblemSchemaOk d bounds = false) ∧
    (∀ m : ℤ, 1 ≤ m →
      deValidateParams 50 m (4 / 5) (9 / 10) DEStrategy.rand1bin
        BoundaryHandling.clipBound 30 = true) ∧
    (∀ (d : ℤ) (bounds : List (ℚ × ℚ)), 0 < d → (bounds.length : ℤ) = d →
      (∀ p ∈ bounds, p.1 < p.2) → problemSchemaOk d bounds = true) := by
  refine ⟨?_, ?_, ?_, ?_, ?_, ?_, ?_⟩
  · intro s m w c1 c2 hm
    have h : decide (m ≤ 100) = false := decide_eq_false (by omega)
    simp [psoValidateParams, h]
  · intro p m cr mr t hm
    have h : decide (m ≤ 100) = false := decide_eq_false (by omega)
    simp [gaValidateParams, h]
  · intro c m a q xi hm
    have h : decide (m ≤ 100) = false := decide_eq_false (by omega)
    simp [acoValidateParams, h]
  · intro it ft rate m std sch hm
    have h : decide (m ≤ 100) = false := decide_eq_false (by omega)
    simp [saValidateParams, h]
  · intro d bounds hd
    have h : decide (d ≤ 50) = false := decide_eq_false (by omega)
    simp [saProblemSchemaOk, h]
  · intro m hm
    have h : decide (1 ≤ m) = true := decide_eq_true hm
    simp [deValidateParams, h]
    norm_num
  · intro d bounds hd hl hb
    have h1 : decide (0 < d) = true := decide_eq_true hd
    have h2 : decide ((bounds.length : ℤ) = d) = true := decide_eq_true hl
    simp only [problemSchemaOk, h1, h2, Bool.true_and, List.all_eq_true,
      decide_eq_true_eq]
    exact hb

/-- Witness for C3's amended theorem at concrete parameter sets. -/
theorem iteration_and_dimension_ceilings_witness :
    psoValidateParams 30 101 (7 / 10) (3 / 2) (3 / 2) = false ∧
    gaValidateParams 50 101 (4 / 5) (1 / 10) 3 = false ∧
    acoValidateParams 30 101 10 (1 / 100) (17 / 20) = false ∧
    saValidateParams 100 (1 / 100) (19 / 20) 101 (1 / 10)
      CoolingSchedule.geometric = false ∧
    saProblemSchemaOk 51 (List.replicate 51 (0, 1)) = false ∧
    deValidateParams 50 101 (4 / 5) (9 / 10) DEStrategy.rand1bin
      BoundaryHandling.clipBound 30 = true ∧
    problemSchemaOk 2 [(0, 1), (2, 3)] = true :=
  ⟨iteration_and_dimension_ceilings.1 30 101 (7 / 10) (3 / 2) (3 / 2) (by decide),
   iteration_and_dimension_ceilings.2.1 50 101 (4 / 5) (1 / 10) 3 (by decide),
   iteration_and_dimension_ceilings.2.2.1 30 101 10 (1 / 100) (17 / 20) (by decide),
   iteration_and_dimension_ceilings.2.2.2.1 100 (1 / 100) (19 / 20) 101 (1 / 10)
     CoolingSchedule.geometric (by decide),
   iteration_and_dimension_ceilings.2.2.2.2.1 51 (List.replicate 51 (0, 1)) (by decide),
   iteration_and_dimension_ceilings.2.2.2.2.2.1 101 (by decide),
   iteration_and_dimension_ceilings.2.2.2.2.2.2 2 [(0, 1), (2, 3)] (by decide)
     (by decide) (by decide)⟩

/-- C3 counterexample to the claim as stated: DE's parameter validation
accepts `max_iterations = 101` (with every other parameter valid), and the
problem-schema validation shared by PSO, GA, DE and ACOR accepts
`dimensions = 51`; neither is rejected with a validation error. -/
theorem de_iteration_cap_counterexample :
    deValidateParams 50 101 (4 / 5) (9 / 10) DEStrategy.rand1bin
        BoundaryHandling.clipBound 30 = true ∧
    problemSchemaOk 51 (List.replicate 51 ((0 : ℚ), (1 : ℚ))) = true := by
  constructor
  · simp [deValidateParams]
    norm_num
  · simp only [problemSchemaOk, List.all_eq_true, decide_eq_true_eq,
      List.length_replicate, Bool.and_eq_true]
    refine ⟨⟨by decide, by decide⟩, ?_⟩
    intro p hp
    rw [List.eq_of_mem_replicate hp]
    norm_num

/-- C5: a malformed problem descriptor or out-of-range parameters are
rejected at `validate`/construction, before any fitness evaluation (the
validators never receive the fitness function) and never from the
optimization loop; in particular a PSO construction with `c1 = 0` and
`c2 = 0` fails validation for every choice of the remaining arguments, and
SA's `initialize` returns the validation error before building any search
state whenever its parameters are out of range. -/
theorem validation_rejects_before_evaluation :
    (∀ (dims : ℤ) (bounds : List (ℚ × ℚ)) (s m : ℤ) (w : ℚ),
      psoConstructOk dims bounds s m w 0 0 = false) ∧
    (∀ (cfg : SA.Config) (draw : List ℚ),
      saValidateParams cfg.initialTemp cfg.finalTemp cfg.coolingRate
        (cfg.maxIterations : ℤ) cfg.neighborStd cfg.coolingSchedule = false →
      SA.init cfg draw = none) := by
  constructor
  · intro dims bounds s m w
    simp [psoConstructOk, psoValidateParams]
  · intro cfg draw h
    simp [SA.init, h]

/-- Concrete SA configuration with an invalid geometric cooling rate, used
by the C5 witness. -/
def saBadCfg : SA.Config :=
  { objective := .minimize
    bounds := [(-1, 1)]
    fitness := fun _ => 0
    initialTemp := 100
    finalTemp := 1 / 100
    coolingRate := 2
    maxIterations := 50
    neighborStd := 1 / 10
    coolingSchedule := .geometric
    timeout := 30 }

/-- Witness for C5 at a concrete input. -/
theorem validation_rejects_before_evaluation_witness :
    psoConstructOk 2 [(0, 1), (0, 1)] 30 50 (7 / 10) 0 0 = false ∧
    SA.init saBadCfg [0] = none :=
  ⟨validation_rejects_before_evaluation.1 2 [(0, 1), (0, 1)] 30 50 (7 / 10),
   validation_rejects_before_evaluation.2 saBadCfg [0]
     (by simp [saBadCfg, saValidateParams])⟩

/-- C1: bounds invariant for all five engines.  For each engine: the state
established by `initialize` from in-bounds uniform draws satisfies the
bounds invariant (every live candidate vector and the best solution lie
coordinatewise within `[lower_d, upper_d]`); one iteration of `optimize`
preserves the invariant from any state satisfying it; and the full
`optimize` run from the initialized state satisfies it — hence it holds
after initialization and after every iteration. -/
theorem bounds_invariant_all_engines :
    (∀ (cfg : PSO.Config) (draws : List (List ℚ × List ℚ)) (clock : ℕ → ℚ)
        (rand : ℕ → ℕ → List ℚ × List ℚ),
      validBounds cfg.bounds → draws ≠ [] →
      (∀ d ∈ draws, inBounds cfg.bounds d.1 ∧ d.2.length = cfg.bounds.length) →
      (∀ it, PSO.WFRand cfg (rand it)) →
      PSO.Inv cfg (PSO.init cfg draws) ∧
      (∀ (st : PSO.State) (r : ℕ → List ℚ × List ℚ), PSO.Inv cfg st →
        PSO.WFRand cfg r → PSO.Inv cfg (PSO.step cfg st r)) ∧
      PSO.Inv cfg (PSO.optimize cfg clock rand (PSO.init cfg draws))) ∧
    (∀ (cfg : GA.Config) (draws : List (List ℝ)) (clock : ℕ → ℚ)
        (pr : ℕ → ℕ → GA.PairRand),
      validBounds cfg.bounds → 0 < cfg.populationSize → draws ≠ [] →
      (∀ d ∈ draws, inBounds cfg.bounds d) → draws.length = cfg.populationSize →
      (∀ it k, GA.WFRand cfg (pr it k)) →
      GA.Inv cfg (GA.initState cfg draws) ∧
      (∀ (st : GA.State) (r : ℕ → GA.PairRand), GA.Inv cfg st →
        (∀ k, GA.WFRand cfg (r k)) → GA.Inv cfg (GA.step cfg st r)) ∧
      GA.Inv cfg (GA.optimize cfg clock pr (GA.initState cfg draws))) ∧
    (∀ (cfg : DE.Config) (draws : List (List ℚ)) (clock : ℕ → ℚ)
        (rands : ℕ → ℕ → DE.TargetRand),
      validBounds cfg.bounds → draws ≠ [] →
      (∀ d ∈ draws, inBounds cfg.bounds d) → draws.length = cfg.populationSize →
      (∀ it j, DE.WFRand cfg (rands it j)) →
      DE.Inv cfg (DE.initState cfg draws) ∧
      (∀ (st : DE.LoopState) (tr : ℕ → DE.TargetRand), DE.Inv cfg st →
        (∀ j, DE.WFRand cfg (tr j)) → DE.Inv cfg (DE.step cfg st tr)) ∧
      DE.Inv cfg (DE.optimize cfg clock rands draws none).1) ∧
    (∀ (cfg : ACOR.Config) (draws : List (List ℚ)) (clock : ℕ → ℚ)
        (r : ℕ → ℕ → ACOR.AntRand),
      validBounds cfg.bounds → (∀ d ∈ draws, inBounds cfg.bounds d) →
      draws.length = cfg.archiveSize → 1 ≤ cfg.archiveSize →
      ACOR.Inv cfg (ACOR.initState cfg draws) ∧
      (∀ (st : ACOR.State) (ar : ℕ → ACOR.AntRand), ACOR.Inv cfg st →
        ACOR.Inv cfg (ACOR.step cfg st ar)) ∧
      ACOR.Inv cfg (ACOR.optimize cfg clock r (ACOR.initState cfg draws))) ∧
    (∀ (cfg : SA.Config) (draw : List ℚ) (clockOuter clockInner : ℕ → ℚ)
        (zr : ℕ → List ℚ × ℚ) (fuel : ℕ),
      validBounds cfg.bounds → inBounds cfg.bounds draw →
      (∀ k, (zr k).1.length = cfg.bounds.length) →
      SA.Inv cfg (SA.initState cfg draw) ∧
      (∀ (st : SA.State) (z : List ℚ) (rand : ℚ), SA.Inv cfg st →
        z.length = cfg.bounds.length → SA.Inv cfg (SA.proposalStep cfg st z rand)) ∧
      SA.Inv cfg (SA.outerLoop cfg clockOuter clockInner zr fuel 0 0
        (SA.initState cfg draw))) := by
  refine ⟨?_, ?_, ?_, ?_, ?_⟩
  · intro cfg draws clock rand hv hne hd hr
    have hinit := PSO.pso_init_inv hne hd
    exact ⟨hinit.1, fun st r hst hr2 => PSO.pso_step_inv hv hst hr2,
      (PSO.pso_loop_inv hv hr 0 cfg.maxIterations _ hinit.1 hinit.2).1⟩
  · intro cfg draws clock pr hv hps hne hd hlen hr
    have hinit := GA.ga_initState_inv hne hd hlen
    exact ⟨hinit.1, fun st r hst hr2 => (GA.ga_step_inv hv hps hst hr2).1,
      (GA.ga_loop_inv hv hps hr 0 cfg.maxIterations _ hinit.1 hinit.2).1⟩
  · intro cfg draws clock rands hv hne hd hlen hr
    have hinit := DE.de_initState_inv hne hd hlen
    exact ⟨hinit.1, fun st tr hst hr2 => (DE.de_step_inv hv hr2 hst).1,
      (DE.de_loop_inv hv hr 0 cfg.maxIterations _ hinit.1 hinit.2).1⟩
  · intro cfg draws clock r hv hd hlen hks
    have hinit := ACOR.aco_initState_inv hd hlen hks
    exact ⟨hinit.1, fun st ar hst => (ACOR.aco_step_inv hv hks hst).1,
      (ACOR.aco_loop_inv hv hks 0 cfg.maxIterations _ hinit.1 hinit.2).1⟩
  · intro cfg draw clockOuter clockInner zr fuel hv hd hz
    have hinit := SA.sa_initState_inv hd
    exact ⟨hinit.1, fun st z rand hst hzl => (SA.proposalStep_inv hv hst hzl).1,
      (SA.outerLoop_inv hv hz fuel 0 0 _ hinit.1 hinit.2).1⟩

/-- Concrete fixtures for the C1 witness. -/
def psoW1 : PSO.Config :=
  { objective := .minimize, bounds := [(0, 1)], fitness := fun _ => 0,
    w := 7 / 10, c1 := 3 / 2, c2 := 3 / 2, maxIterations := 2, timeout := 30 }

def psoW1rand : ℕ → ℕ → List ℚ × List ℚ := fun _ _ => ([0], [0])

theorem psoW1rand_wf : ∀ it, PSO.WFRand psoW1 (psoW1rand it) :=
  fun _ _ => ⟨rfl, rfl⟩

noncomputable def gaW1 : GA.Config :=
  { objective := .minimize, bounds := [(0, 1)], fitness := fun _ => 0,
    populationSize := 1, maxIterations := 2, crossoverRate := 4 / 5,
    mutationRate := 1 / 10, tournamentSize := 1, timeout := 30 }

noncomputable def gaW1pr : ℕ → ℕ → GA.PairRand := fun _ _ =>
  { t1 := [0], t2 := [0], uCross := 1, sbxRands := [(1, 0)],
    mut1 := [(1, 0)], mut2 := [(1, 0)] }

theorem gaW1_validBounds : validBounds gaW1.bounds := by
  intro p hp
  simp only [gaW1, List.mem_singleton] at hp
  rw [hp]
  norm_num

theorem gaW1_draws_inBounds : ∀ d ∈ ([[0]] : List (List ℝ)), inBounds gaW1.bounds d := by
  intro d hd
  simp only [List.mem_singleton] at hd
  rw [hd]
  exact ⟨⟨by norm_num [gaW1], by norm_num [gaW1]⟩, trivial⟩

theorem gaW1pr_wf : ∀ it k, GA.WFRand gaW1 (gaW1pr it k) := by
  intro it k
  refine ⟨?_, ?_, ?_, ?_, rfl, rfl, rfl⟩
  · simp [gaW1pr]
  · intro j hj
    simp only [gaW1pr, List.mem_singleton] at hj
    rw [hj]
    decide
  · simp [gaW1pr]
  · intro j hj
    simp only [gaW1pr, List.mem_singleton] at hj
    rw [hj]
    decide

def deW1 : DE.Config :=
  { objective := .minimize, bounds := [(0, 1)], fitness := fun _ => 0,
    populationSize := 10, maxIterations := 2, F := 4 / 5, CR := 9 / 10,
    strategy := .rand1bin, boundaryHandling := .clipBound, timeout := 30 }

def deW1rands : ℕ → ℕ → DE.TargetRand := fun _ _ =>
  { i1 := 1, i2 := 2, i3 := 3, i4 := 4, i5 := 5, maskRands := [1 / 2], forcedIdx := 0 }

theorem deW1rands_wf : ∀ it j, DE.WFRand deW1 (deW1rands it j) := by
  intro it j
  show DE.WFRand deW1
    { i1 := 1, i2 := 2, i3 := 3, i4 := 4, i5 := 5, maskRands := [1 / 2],
      forcedIdx := 0 }
  exact ⟨by decide, by decide, by decide, by decide, by decide, rfl⟩

def acoW1 : ACOR.Config :=
  { objective := .minimize, bounds := [(0, 1)], fitness := fun _ => 0,
    colonySize := 5, maxIterations := 2, archiveSize := 3, q := 1 / 100,
    xi := 17 / 20, timeout := 30 }

def acoW1r : ℕ → ℕ → ACOR.AntRand := fun _ _ => { selIdx := 0, noise := [0] }

def saW1 : SA.Config :=
  { objective := .minimize, bounds := [(0, 1)], fitness := fun _ => 0,
    initialTemp := 100, finalTemp := 1 / 100, coolingRate := 19 / 20,
    maxIterations := 2, neighborStd := 1 / 10, coolingSchedule := .geometric,
    timeout := 30 }

/-- Witness for C1: each engine's full run from a concrete in-bounds
initialization satisfies its bounds invariant. -/
theorem bounds_invariant_all_engines_witness :
    PSO.Inv psoW1 (PSO.optimize psoW1 (fun _ => 0) psoW1rand
      (PSO.init psoW1 [([0], [0])])) ∧
    GA.Inv gaW1 (GA.optimize gaW1 (fun _ => 0) gaW1pr (GA.initState gaW1 [[0]])) ∧
    DE.Inv deW1 (DE.optimize deW1 (fun _ => 0) deW1rands
      (List.replicate 10 [0]) none).1 ∧
    ACOR.Inv acoW1 (ACOR.optimize acoW1 (fun _ => 0) acoW1r
      (ACOR.initState acoW1 (List.replicate 3 [0]))) ∧
    SA.Inv saW1 (SA.outerLoop saW1 (fun _ => 0) (fun _ => 0)
      (fun _ => ([0], 1 / 2)) 3 0 0 (SA.initState saW1 [0])) :=
  ⟨(bounds_invariant_all_engines.1 psoW1 [([0], [0])] (fun _ => 0)
      psoW1rand (by decide) (by decide) (by decide) psoW1rand_wf).2.2,
   (bounds_invariant_all_engines.2.1 gaW1 [[0]] (fun _ => 0) gaW1pr
      gaW1_validBounds (by decide) (List.cons_ne_nil _ _) gaW1_draws_inBounds
      rfl gaW1pr_wf).2.2,
   (bounds_invariant_all_engines.2.2.1 deW1 (List.replicate 10 [0]) (fun _ => 0)
      deW1rands (by decide) (by decide) (by decide) rfl deW1rands_wf).2.2,
   (bounds_invariant_all_engines.2.2.2.1 acoW1 (List.replicate 3 [0]) (fun _ => 0)
      acoW1r (by decide) (by decide) rfl (by decide)).2.2,
   (bounds_invariant_all_engines.2.2.2.2 saW1 [0] (fun _ => 0) (fun _ => 0)
      (fun _ => ([0], 1 / 2)) 3 (by decide) (by decide) (fun _ => rfl)).2.2⟩

/-- C2: monotone best-so-far for all five engines.  For each engine the
convergence trace produced by a full `optimize` run is monotone in the
direction of the objective — non-increasing for minimize, non-decreasing
for maximize, i.e. consecutive recorded points never regress — and one
iteration of the loop never makes the recorded best-so-far fitness worse. -/
theorem trace_monotone_all_engines :
    (∀ (cfg : PSO.Config) (draws : List (List ℚ × List ℚ)) (clock : ℕ → ℚ)
        (rand : ℕ → ℕ → List ℚ × List ℚ),
      validBounds cfg.bounds → draws ≠ [] →
      (∀ d ∈ draws, inBounds cfg.bounds d.1 ∧ d.2.length = cfg.bounds.length) →
      (∀ it, PSO.WFRand cfg (rand it)) →
      traceMonotone cfg.objective
        (PSO.optimize cfg clock rand (PSO.init cfg draws)).convergenceCurve ∧
      (∀ (st : PSO.State) (r : ℕ → List ℚ × List ℚ), PSO.Inv cfg st →
        PSO.WFRand cfg r →
        notWorse cfg.objective st.globalBestScore (PSO.step cfg st r).globalBestScore)) ∧
    (∀ (cfg : GA.Config) (draws : List (List ℝ)) (clock : ℕ → ℚ)
        (pr : ℕ → ℕ → GA.PairRand),
      validBounds cfg.bounds → 0 < cfg.populationSize → draws ≠ [] →
      (∀ d ∈ draws, inBounds cfg.bounds d) → draws.length = cfg.populationSize →
      (∀ it k, GA.WFRand cfg (pr it k)) →
      traceMonotone cfg.objective
        (GA.optimize cfg clock pr (GA.initState cfg draws)).convergenceCurve ∧
      (∀ (st : GA.State) (r : ℕ → GA.PairRand), GA.Inv cfg st →
        (∀ k, GA.WFRand cfg (r k)) →
        notWorse cfg.objective st.bestFitness (GA.step cfg st r).bestFitness)) ∧
    (∀ (cfg : DE.Config) (draws : List (List ℚ)) (clock : ℕ → ℚ)
        (rands : ℕ → ℕ → DE.TargetRand),
      validBounds cfg.bounds → draws ≠ [] →
      (∀ d ∈ draws, inBounds cfg.bounds d) → draws.length = cfg.populationSize →
      (∀ it j, DE.WFRand cfg (rands it j)) →
      traceMonotone cfg.objective
        (DE.optimize cfg clock rands draws none).1.convergenceCurve ∧
      (∀ (st : DE.LoopState) (tr : ℕ → DE.TargetRand), DE.Inv cfg st →
        (∀ j, DE.WFRand cfg (tr j)) →
        notWorse cfg.objective st.bestFitness (DE.step cfg st tr).bestFitness)) ∧
    (∀ (cfg : ACOR.Config) (draws : List (List ℚ)) (clock : ℕ → ℚ)
        (r : ℕ → ℕ → ACOR.AntRand),
      validBounds cfg.bounds → (∀ d ∈ draws, inBounds cfg.bounds d) →
      draws.length = cfg.archiveSize → 1 ≤ cfg.archiveSize →
      traceMonotone cfg.objective
        (ACOR.optimize cfg clock r (ACOR.initState cfg draws)).convergenceCurve ∧
      (∀ (st : ACOR.State) (ar : ℕ → ACOR.AntRand), ACOR.Inv cfg st →
        notWorse cfg.objective st.bestFitness (ACOR.step cfg st ar).bestFitness)) ∧
    (∀ (cfg : SA.Config) (draw : List ℚ) (clockOuter clockInner : ℕ → ℚ)
        (zr : ℕ → List ℚ × ℚ) (fuel : ℕ),
      validBounds cfg.bounds → inBounds cfg.bounds draw →
      (∀ k, (zr k).1.length = cfg.bounds.length) →
      traceMonotone cfg.objective
        (SA.outerLoop cfg clockOuter clockInner zr fuel 0 0
          (SA.initState cfg draw)).convergenceCurve ∧
      (∀ (st : SA.State) (z : List ℚ) (rand : ℚ), SA.Inv cfg st →
        z.length = cfg.bounds.length →
        notWorse cfg.objective st.bestFitness
          (SA.proposalStep cfg st z rand).bestFitness)) := by
  refine ⟨?_, ?_, ?_, ?_, ?_⟩
  · intro cfg draws clock rand hv hne hd hr
    have hinit := PSO.pso_init_inv hne hd
    exact ⟨(PSO.pso_loop_inv hv hr 0 cfg.maxIterations _ hinit.1 hinit.2).2.2,
      fun st r hst hr2 => PSO.step_notWorse hv hst hr2⟩
  · intro cfg draws clock pr hv hps hne hd hlen hr
    have hinit := GA.ga_initState_inv hne hd hlen
    exact ⟨(GA.ga_loop_inv hv hps hr 0 cfg.maxIterations _ hinit.1 hinit.2).2.2,
      fun st r hst hr2 => (GA.ga_step_inv hv hps hst hr2).2⟩
  · intro cfg draws clock rands hv hne hd hlen hr
    have hinit := DE.de_initState_inv hne hd hlen
    exact ⟨(DE.de_loop_inv hv hr 0 cfg.maxIterations _ hinit.1 hinit.2).2.2,
      fun st tr hst hr2 => (DE.de_step_inv hv hr2 hst).2⟩
  · intro cfg draws clock r hv hd hlen hks
    have hinit := ACOR.aco_initState_inv hd hlen hks
    exact ⟨(ACOR.aco_loop_inv hv hks 0 cfg.maxIterations _ hinit.1 hinit.2).2.2,
      fun st ar hst => (ACOR.aco_step_inv hv hks hst).2⟩
  · intro cfg draw clockOuter clockInner zr fuel hv hd hz
    have hinit := SA.sa_initState_inv hd
    exact ⟨(SA.outerLoop_inv hv hz fuel 0 0 _ hinit.1 hinit.2).2.1,
      fun st z rand hst hzl => (SA.proposalStep_inv hv hst hzl).2.1⟩

set_option maxRecDepth 8192 in
/-- Witness for C2: the traces of each engine's concrete run are monotone. -/
theorem trace_monotone_all_engines_witness :
    traceMonotone psoW1.objective (PSO.optimize psoW1 (fun _ => 0) psoW1rand
      (PSO.init psoW1 [([0], [0])])).convergenceCurve ∧
    traceMonotone gaW1.objective (GA.optimize gaW1 (fun _ => 0) gaW1pr
      (GA.initState gaW1 [[0]])).convergenceCurve ∧
    traceMonotone deW1.objective (DE.optimize deW1 (fun _ => 0) deW1rands
      (List.replicate 10 [0]) none).1.convergenceCurve ∧
    traceMonotone acoW1.objective (ACOR.optimize acoW1 (fun _ => 0) acoW1r
      (ACOR.initState acoW1 (List.replicate 3 [0]))).convergenceCurve ∧
    traceMonotone saW1.objective (SA.outerLoop saW1 (fun _ => 0) (fun _ => 0)
      (fun _ => ([0], 1 / 2)) 3 0 0 (SA.initState saW1 [0])).convergenceCurve :=
  ⟨(trace_monotone_all_engines.1 psoW1 [([0], [0])] (fun _ => 0)
      psoW1rand (by decide) (by decide) (by decide) psoW1rand_wf).1,
   (trace_monotone_all_engines.2.1 gaW1 [[0]] (fun _ => 0) gaW1pr
      gaW1_validBounds (by decide) (List.cons_ne_nil _ _) gaW1_draws_inBounds
      rfl gaW1pr_wf).1,
   (trace_monotone_all_engines.2.2.1 deW1 (List.replicate 10 [0]) (fun _ => 0)
      deW1rands (by decide) (by decide) (by decide) rfl deW1rands_wf).1,
   (trace_monotone_all_engines.2.2.2.1 acoW1 (List.replicate 3 [0]) (fun _ => 0)
      acoW1r (by decide) (by decide) rfl (by decide)).1,
   (trace_monotone_all_engines.2.2.2.2 saW1 [0] (fun _ => 0) (fun _ => 0)
      (fun _ => ([0], 1 / 2)) 3 (by decide) (by decide) (fun _ => rfl)).1⟩

/-- C4: DE's `optimize` checks the wall clock at the top of every iteration
and exits early without raising, but the iteration count it reports is NOT
the number of iterations actually completed: with a clock that first reads
within the timeout and then beyond it (timeout exceeded after the first
iteration), exactly one iteration runs — the convergence curve gains
exactly one point — while `get_results` receives `iteration + 1 = 2`, not
1.  This holds for every configuration, starting state and randomness. -/
theorem de_timeout_reports_inflated_count :
    ∀ (cfg : DE.Config) (clock : ℕ → ℚ) (rands : ℕ → ℕ → DE.TargetRand)
      (st : DE.LoopState) (n : ℕ),
      ¬ cfg.timeout < clock 0 → cfg.timeout < clock 1 →
      DE.loop cfg clock rands 0 (n + 2) st = (DE.step cfg st (rands 0), 2) ∧
      (DE.step cfg st (rands 0)).convergenceCurve
        = st.convergenceCurve
            ++ [(DE.innerLoop cfg (rands 0) 0 cfg.populationSize st).bestFitness] := by
  intro cfg clock rands st n h0 h1
  constructor
  · show (if cfg.timeout < clock 0 then (st, 0 + 1)
      else DE.loop cfg clock rands 1 (n + 1) (DE.step cfg st (rands 0))) = _
    rw [if_neg h0]
    show (if cfg.timeout < clock 1 then (DE.step cfg st (rands 0), 1 + 1)
      else _) = _
    rw [if_pos h1]
  · show (DE.innerLoop cfg (rands 0) 0 cfg.populationSize st).convergenceCurve
        ++ [(DE.innerLoop cfg (rands 0) 0 cfg.populationSize st).bestFitness] = _
    rw [DE.innerLoop_curve]

/-- Concrete DE configuration and state for the C4 witness. -/
def deW : DE.Config :=
  { objective := .minimize
    bounds := [(0, 1)]
    fitness := fun _ => 0
    populationSize := 10
    maxIterations := 5
    F := 4 / 5
    CR := 9 / 10
    strategy := .rand1bin
    boundaryHandling := .clipBound
    timeout := 30 }

def deWState : DE.LoopState :=
  { population := List.replicate 10 [0]
    fitnessValues := List.replicate 10 0
    bestIndividual := [0]
    bestFitness := 0
    convergenceCurve := [0] }

def deWClock : ℕ → ℚ := fun i => if i = 0 then 0 else 31

def deWRands : ℕ → ℕ → DE.TargetRand := fun _ i =>
  { i1 := (i + 1) % 10, i2 := (i + 2) % 10, i3 := (i + 3) % 10
    i4 := (i + 4) % 10, i5 := (i + 5) % 10
    maskRands := [1 / 2], forcedIdx := 0 }

/-- Witness for C4 at the concrete injected clock `0, 31, 31, ...` with the
30-second timeout and `max_iterations = 5`: the loop stops after one
completed iteration yet reports 2. -/
theorem de_timeout_reports_inflated_count_witness :
    DE.loop deW deWClock deWRands 0 (3 + 2) deWState
        = (DE.step deW deWState (deWRands 0), 2) ∧
    (DE.step deW deWState (deWRands 0)).convergenceCurve
        = deWState.convergenceCurve
            ++ [(DE.innerLoop deW (deWRands 0) 0 deW.populationSize
                  deWState).bestFitness] :=
  de_timeout_reports_inflated_count deW deWClock deWRands deWState 3
    (by simp [deW, deWClock]) (by simp [deW, deWClock]; norm_num)

/-- C6: SA's Metropolis acceptance: a strictly better candidate is always
accepted; for a strictly worse candidate (positive `ΔE`) at positive
temperature, the candidate is accepted exactly when the uniform draw is
below `exp(−ΔE/T)`, and that exponential is a genuine probability, strictly
between 0 and 1 — finite, so the source's NaN/Inf/overflow rejection guard
is never triggered in the exact-real model. -/
theorem sa_metropolis_acceptance :
    ∀ (obj : Objective) (nf cf : ℚ) (T : ℝ) (rand : ℚ),
      (isBetter obj nf cf = true → SA.accepts obj nf cf T rand) ∧
      (isBetter obj nf cf = false → 0 < SA.deltaE obj nf cf → 0 < T →
        ((SA.accepts obj nf cf T rand ↔
            (rand : ℝ) < Real.exp (-((SA.deltaE obj nf cf : ℚ) : ℝ) / T)) ∧
          0 < Real.exp (-((SA.deltaE obj nf cf : ℚ) : ℝ) / T) ∧
          Real.exp (-((SA.deltaE obj nf cf : ℚ) : ℝ) / T) < 1)) := by
  intro obj nf cf T rand
  constructor
  · intro h
    rw [SA.accepts, if_pos h]
    trivial
  · intro h hd hT
    have hnle : ¬ (SA.deltaE obj nf cf ≤ 0) := not_le.mpr hd
    have hneg : -((SA.deltaE obj nf cf : ℚ) : ℝ) / T < 0 := by
      have hdr : (0 : ℝ) < ((SA.deltaE obj nf cf : ℚ) : ℝ) := by exact_mod_cast hd
      have := div_pos hdr hT
      rw [neg_div]
      linarith
    refine ⟨?_, Real.exp_pos _, ?_⟩
    · rw [SA.accepts, if_neg (by simp [h]), if_neg hnle]
    · have := Real.exp_lt_exp.mpr hneg
      simpa using this

/-- Witness for C6 at concrete fitness values (minimize, worse move of
`ΔE = 2` at `T = 1`). -/
theorem sa_metropolis_acceptance_witness :
    SA.accepts .minimize 3 5 1 (1 / 2) ∧
    (SA.accepts .minimize 5 3 1 (1 / 2) ↔
      ((1 / 2 : ℚ) : ℝ) < Real.exp (-((SA.deltaE .minimize 5 3 : ℚ) : ℝ) / 1)) ∧
    0 < Real.exp (-((SA.deltaE .minimize 5 3 : ℚ) : ℝ) / 1) ∧
    Real.exp (-((SA.deltaE .minimize 5 3 : ℚ) : ℝ) / 1) < 1 :=
  ⟨(sa_metropolis_acceptance .minimize 3 5 1 (1 / 2)).1 (by decide),
   ((sa_metropolis_acceptance .minimize 5 3 1 (1 / 2)).2 (by decide)
     (by norm_num [SA.deltaE]) (by norm_num)).1,
   ((sa_metropolis_acceptance .minimize 5 3 1 (1 / 2)).2 (by decide)
     (by norm_num [SA.deltaE]) (by norm_num)).2.1,
   ((sa_metropolis_acceptance .minimize 5 3 1 (1 / 2)).2 (by decide)
     (by norm_num [SA.deltaE]) (by norm_num)).2.2⟩

/-- C7 (amended): in DE's binomial crossover each dimension is taken from
the mutant exactly when its uniform draw is below `CR` (with one random
dimension forced from the mutant when no draw passes), so at least one
dimension always comes from the mutant, and the trial differs from the
target whenever the mutant differs from the target in every coordinate; if
the mutant coincides with the target on the selected dimensions the trial
equals the target. -/
theorem de_binomial_crossover :
    ∀ (CR : ℚ) (rands : List ℚ) (forcedIdx : ℕ) (mutant target : List ℚ),
      forcedIdx < rands.length → mutant.length = rands.length →
      target.length = rands.length →
      (∀ d, d < rands.length →
        (DE.binomialCrossover CR rands forcedIdx mutant target).getD d 0 =
          if (DE.crossMask CR rands forcedIdx).getD d false then mutant.getD d 0
          else target.getD d 0) ∧
      ((∃ r ∈ rands, r < CR) →
        DE.crossMask CR rands forcedIdx = rands.map (fun r => decide (r < CR))) ∧
      (∃ d, d < rands.length ∧ (DE.crossMask CR rands forcedIdx).getD d false = true) ∧
      ((∀ d, d < rands.length → mutant.getD d 0 ≠ target.getD d 0) →
        DE.binomialCrossover CR rands forcedIdx mutant target ≠ target) := by
  intro CR rands forcedIdx mutant target hf hm ht
  have hmask := DE.length_crossMask CR rands forcedIdx
  refine ⟨?_, ?_, ?_, ?_⟩
  · intro d hd
    exact DE.npWhere_getD (DE.crossMask CR rands forcedIdx) mutant target d
      (by omega) (by omega) (by omega)
  · exact DE.crossMask_of_any
  · rcases @DE.crossMask_exists_true CR rands forcedIdx hf with ⟨d, hd, hdt⟩
    exact ⟨d, by omega, hdt⟩
  · intro hne
    exact DE.binomialCrossover_ne_target hf hm ht
      (fun d hd => hne d hd)

/-- Witness for C7's amended theorem at a concrete crossover. -/
theorem de_binomial_crossover_witness :
    (∀ d, d < ([1 / 2] : List ℚ).length →
      (DE.binomialCrossover (9 / 10) [1 / 2] 0 [5] [7]).getD d 0 =
        if (DE.crossMask (9 / 10) [1 / 2] 0).getD d false then ([5] : List ℚ).getD d 0
        else ([7] : List ℚ).getD d 0) ∧
    (∃ d, d < ([1 / 2] : List ℚ).length ∧
      (DE.crossMask (9 / 10) [1 / 2] 0).getD d false = true) ∧
    DE.binomialCrossover (9 / 10) [1 / 2] 0 [5] [7] ≠ [7] := by
  have h := de_binomial_crossover (9 / 10) [1 / 2] 0 [5] [7] (by decide) (by decide)
    (by decide)
  refine ⟨h.1, h.2.2.1, h.2.2.2 ?_⟩
  intro d hd
  simp only [List.length_singleton] at hd
  have hd0 : d = 0 := by omega
  subst hd0
  simp

/-- C7 counterexample to the claim as stated: when the mutant happens to
coincide with the target (all-equal population rows make this reachable),
the trial produced by the crossover is equal to the target, so the "trial
differs from the target" guarantee fails. -/
theorem de_crossover_counterexample :
    DE.binomialCrossover (9 / 10) [1 / 2] 0 [0] [0] = [(0 : ℚ)] := by
  have hp : ((1 : ℚ) / 2 < 9 / 10) := by norm_num
  have hp2 : ((2 : ℚ)⁻¹ < 9 / 10) := by norm_num
  simp [DE.binomialCrossover, DE.crossMask, DE.npWhere, decide_eq_true hp,
    decide_eq_true hp2, hp, hp2]

/-- C8: in every SA proposal step, a neighbor whose fitness strictly beats
the recorded best updates the best solution and best fitness, even when the
Metropolis criterion rejects it (in which case the current solution and
fitness are left unchanged). -/
theorem sa_best_updates_despite_rejection :
    ∀ (cfg : SA.Config) (st : SA.State) (z : List ℚ) (rand : ℚ),
      isBetter cfg.objective
        (cfg.fitness (SA.neighborVec cfg.neighborStd cfg.bounds st.currentSolution z))
        st.bestFitness = true →
      (SA.proposalStep cfg st z rand).bestSolution
          = SA.neighborVec cfg.neighborStd cfg.bounds st.currentSolution z ∧
      (SA.proposalStep cfg st z rand).bestFitness
          = cfg.fitness (SA.neighborVec cfg.neighborStd cfg.bounds st.currentSolution z) ∧
      (¬ SA.accepts cfg.objective
          (cfg.fitness (SA.neighborVec cfg.neighborStd cfg.bounds st.currentSolution z))
          st.currentFitness st.temperature rand →
        (SA.proposalStep cfg st z rand).currentSolution = st.currentSolution ∧
        (SA.proposalStep cfg st z rand).currentFitness = st.currentFitness) := by
  intro cfg st z rand h
  refine ⟨?_, ?_, ?_⟩
  · rw [SA.proposalStep_bestSolution, if_pos h]
  · rw [SA.proposalStep_bestFitness, if_pos h]
  · intro hacc
    constructor
    · rw [SA.proposalStep_currentSolution, if_neg hacc]
    · rw [SA.proposalStep_currentFitness, if_neg hacc]

/-- Concrete SA configuration and state for the C8 witness: the recorded
best (fitness 1) is worse than the current point (fitness 0) — states of
this shape are the ones where rejected-but-best can fire. -/
def saW : SA.Config :=
  { objective := .minimize
    bounds := [(0, 1)]
    fitness := fun v => v.headI
    initialTemp := 100
    finalTemp := 1 / 100
    coolingRate := 19 / 20
    maxIterations := 5
    neighborStd := 1
    coolingSchedule := .geometric
    timeout := 30 }

def saWState : SA.State :=
  { currentSolution := [0]
    currentFitness := 0
    bestSolution := [1]
    bestFitness := 1
    temperature := 1
    temperatureHistory := [1]
    convergenceCurve := [1]
    evaluationsCount := 1
    acceptanceCount := 0
    totalWorseAttempts := 0 }

/-- Witness for C8 at the concrete state. -/
theorem sa_best_updates_despite_rejection_witness :
    (SA.proposalStep saW saWState [0] (1 / 2)).bestSolution
        = SA.neighborVec saW.neighborStd saW.bounds saWState.currentSolution [0] ∧
    (SA.proposalStep saW saWState [0] (1 / 2)).bestFitness
        = saW.fitness (SA.neighborVec saW.neighborStd saW.bounds
            saWState.currentSolution [0]) :=
  ⟨(sa_best_updates_despite_rejection saW saWState [0] (1 / 2)
      (by norm_num [saW, saWState, SA.neighborVec, clip, isBetter])).1,
   (sa_best_updates_despite_rejection saW saWState [0] (1 / 2)
      (by norm_num [saW, saWState, SA.neighborVec, clip, isBetter])).2.1⟩

/-- C9: ACOR's archive-selection weights: the weight of rank `i` is the
normalized Gaussian `(1/(q·k·√(2π)))·exp(−(rank−1)²/(2(q·k)²))` — the
normalized weights sum to 1 and are proportional (with the positive
normalizing constant) to the Gaussian numerators — and every iteration of
`optimize` recomputes the weight vector for the new ranking. -/
theorem acor_archive_weights :
    (∀ (q : ℚ) (k : ℕ), 0 < q → 1 ≤ k →
      (ACOR.updateWeights q k).length = k ∧
      (ACOR.updateWeights q k).sum = 1 ∧
      0 < ((List.range k).map (ACOR.gaussWeight q k)).sum ∧
      (∀ i, i < k →
        (ACOR.updateWeights q k).getD i 0 *
          ((List.range k).map (ACOR.gaussWeight q k)).sum = ACOR.gaussWeight q k i)) ∧
    (∀ (cfg : ACOR.Config) (st : ACOR.State) (r : ℕ → ACOR.AntRand),
      (ACOR.step cfg st r).weights = ACOR.updateWeights cfg.q cfg.archiveSize) := by
  constructor
  · intro q k hq hk
    exact ⟨ACOR.updateWeights_length hq hk, ACOR.updateWeights_sum hq hk,
      ACOR.rawSum_pos hq hk, fun i hi => ACOR.updateWeights_propto hq hk hi⟩
  · intro cfg st r
    exact ACOR.step_weights st r

/-- Witness for C9 at `q = 1/100`, `k = 10`. -/
theorem acor_archive_weights_witness :
    (ACOR.updateWeights (1 / 100) 10).length = 10 ∧
    (ACOR.updateWeights (1 / 100) 10).sum = 1 ∧
    0 < ((List.range 10).map (ACOR.gaussWeight (1 / 100) 10)).sum ∧
    (ACOR.updateWeights (1 / 100) 10).getD 3 0 *
      ((List.range 10).map (ACOR.gaussWeight (1 / 100) 10)).sum
        = ACOR.gaussWeight (1 / 100) 10 3 :=
  ⟨(acor_archive_weights.1 (1 / 100) 10 (by norm_num) (by decide)).1,
   (acor_archive_weights.1 (1 / 100) 10 (by norm_num) (by decide)).2.1,
   (acor_archive_weights.1 (1 / 100) 10 (by norm_num) (by decide)).2.2.1,
   (acor_archive_weights.1 (1 / 100) 10 (by norm_num) (by decide)).2.2.2 3 (by decide)⟩

/-- C10: calling DE's `optimize` on an engine whose `initialize` has never
run (`population is None`) does not fail: it performs the full
initialization (population creation from the uniform draws, row-by-row
evaluation, the single-point convergence trace) and then runs the loop, so
it coincides exactly with the sequenced initialize-then-optimize run. -/
theorem de_optimize_auto_initializes :
    ∀ (cfg : DE.Config) (clock : ℕ → ℚ) (rands : ℕ → ℕ → DE.TargetRand)
      (initDraws : List (List ℚ)),
      DE.optimize cfg clock rands initDraws none
        = DE.optimize cfg clock rands initDraws
            (some (DE.initState cfg initDraws)) ∧
      (DE.initState cfg initDraws).population = initDraws ∧
      (DE.initState cfg initDraws).fitnessValues = initDraws.map cfg.fitness ∧
      (DE.initState cfg initDraws).convergenceCurve
        = [(DE.initState cfg initDraws).bestFitness] :=
  fun _ _ _ _ => ⟨rfl, rfl, rfl, rfl⟩

end OptHub
